import Mathlib

/-!
Verification of the aisu-os/core control plane services against their
natural-language specification.

The Python services under `src/aiso_core/services` are shallowly embedded:

* `ContainerFsService` (path validation, VFS/container path translation,
  the filesystem verbs executed inside the container) becomes a family of
  pure functions over an explicit filesystem state `Fs`; every verb also
  returns the list of argv vectors it would `docker exec`, so that
  "no in-container exec is issued" is a statement about an empty trace.
* `FileSystemService` (the orchestrator combining container content with
  the metadata store) becomes functions over `Fs × Db`.
* `TerminalSession` becomes a small state machine with an action trace.
* `_create_user_dirs` of `ContainerService` becomes a pure directory list.

Machine strings are Lean `String`s; the Python helpers `str.split`,
`str.rsplit(sep, 1)` and slicing are re-implemented over `String.data`
so that they can be reasoned about by list induction.
-/

namespace Aisu

/-! ### Python string helpers -/

/-- Python `s.split(sep)` for a one-character separator: splits on every
occurrence and keeps empty fragments (`"".split            -- one empty fragment`). -/
def splitChar (sep : Char) : List Char → List (List Char)
  | [] => [[]]
  | c :: cs =>
    match splitChar sep cs with
    | [] => [[]]
    | g :: gs => if c = sep then [] :: g :: gs else (c :: g) :: gs

/-- Joining with a one-character separator; inverse of `splitChar`. -/
def joinChar (sep : Char) : List (List Char) → List Char
  | [] => []
  | [g] => g
  | g :: gs => g ++ sep :: joinChar sep gs

theorem splitChar_ne_nil (sep : Char) (l : List Char) : splitChar sep l ≠ [] := by
  cases l with
  | nil => simp [splitChar]
  | cons c cs =>
    simp only [splitChar]
    cases h : splitChar sep cs with
    | nil => simp
    | cons g gs => by_cases hc : c = sep <;> simp [hc]

theorem joinChar_splitChar (sep : Char) (l : List Char) :
    joinChar sep (splitChar sep l) = l := by
  induction l with
  | nil => rfl
  | cons c cs ih =>
    simp only [splitChar]
    cases h : splitChar sep cs with
    | nil => exact absurd h (splitChar_ne_nil sep cs)
    | cons g gs =>
      rw [h] at ih
      by_cases hc : c = sep
      · subst hc
        simp only [if_pos rfl]
        cases gs with
        | nil => simpa [joinChar] using ih
        | cons g2 gs2 => simpa [joinChar] using ih
      · simp only [if_neg hc]
        cases gs with
        | nil => simpa [joinChar] using ih
        | cons g2 gs2 => simpa [joinChar] using ih

theorem splitChar_append (sep : Char) (xs ys : List Char) :
    splitChar sep (xs ++ sep :: ys) = splitChar sep xs ++ splitChar sep ys := by
  induction xs with
  | nil =>
    simp only [List.nil_append, splitChar]
    cases h : splitChar sep ys with
    | nil => exact absurd h (splitChar_ne_nil sep ys)
    | cons g gs => simp [splitChar]
  | cons c cs ih =>
    cases h : splitChar sep cs with
    | nil => exact absurd h (splitChar_ne_nil sep cs)
    | cons g gs =>
      rw [h] at ih
      simp only [List.cons_append, splitChar, List.append_eq]
      rw [ih]
      rw [h]
      by_cases hc : c = sep <;> simp [hc]

theorem splitChar_no_sep (sep : Char) (l : List Char) (h : sep ∉ l) :
    splitChar sep l = [l] := by
  induction l with
  | nil => rfl
  | cons c cs ih =>
    simp only [List.mem_cons, not_or] at h
    simp only [splitChar, ih h.2]
    rw [if_neg (fun hc : c = sep => h.1 hc.symm)]

/-! ### Decimal representation of naturals is injective

The unique-name loops (`generate_unique_name`, `move_to_trash`) build
candidate names `f"{base} {counter}"`; termination and minimality of the
first-free-counter search need that distinct counters give distinct
strings, i.e. that `Nat.repr` is injective.  We prove it by a digit-value
round trip. -/

/-- Reads a decimal digit string back to the natural number it denotes. -/
def decVal (l : List Char) : Nat :=
  l.foldl (fun a c => 10 * a + (c.toNat - 48)) 0

theorem decVal_append_singleton (xs : List Char) (c : Char) :
    decVal (xs ++ [c]) = 10 * decVal xs + (c.toNat - 48) := by
  simp [decVal, List.foldl_append]

theorem digitChar_toNat_sub (d : Nat) (h : d < 10) :
    (Nat.digitChar d).toNat - 48 = d := by
  interval_cases d <;> rfl

theorem toDigitsCore_acc (b f n : Nat) (l : List Char) :
    Nat.toDigitsCore b f n l = Nat.toDigitsCore b f n [] ++ l := by
  induction f generalizing n l with
  | zero => simp [Nat.toDigitsCore]
  | succ f ih =>
    simp only [Nat.toDigitsCore]
    by_cases h : n / b = 0
    · simp [h]
    · simp only [h, if_false]
      rw [ih (n / b) (Nat.digitChar (n % b) :: l), ih (n / b) [Nat.digitChar (n % b)]]
      simp

theorem decVal_toDigitsCore (f : Nat) : ∀ n : Nat, n < 10 ^ f →
    decVal (Nat.toDigitsCore 10 f n []) = n := by
  induction f with
  | zero =>
    intro n hn
    interval_cases n
    rfl
  | succ f ih =>
    intro n hn
    simp only [Nat.toDigitsCore]
    by_cases h : n / 10 = 0
    · have hlt : n < 10 := by omega
      simp [h, decVal, digitChar_toNat_sub (n % 10) (Nat.mod_lt n (by norm_num))]
      omega
    · have hdiv : n / 10 < 10 ^ f :=
        Nat.div_lt_of_lt_mul (by rw [pow_succ] at hn; omega)
      simp only [h, if_false]
      rw [toDigitsCore_acc, decVal_append_singleton, ih (n / 10) hdiv,
        digitChar_toNat_sub (n % 10) (Nat.mod_lt n (by omega))]
      omega

theorem decVal_repr (n : Nat) : decVal (Nat.repr n).data = n := by
  have hfuel : n < 10 ^ (n + 1) :=
    lt_of_lt_of_le (Nat.lt_two_pow n)
      (le_trans (Nat.pow_le_pow_left (by norm_num) n) (Nat.pow_le_pow_right (by norm_num) (Nat.le_succ n)))
  simpa [Nat.repr, Nat.toDigits, List.asString] using decVal_toDigitsCore (n + 1) n hfuel

theorem natRepr_injective : Function.Injective Nat.repr := by
  intro m n h
  have : decVal (Nat.repr m).data = decVal (Nat.repr n).data := by rw [h]
  rwa [decVal_repr, decVal_repr] at this

/-! ### String wrappers mirroring the Python string operations -/

/-- Python `s.split("/")` (all fragments, empties kept). -/
def pySplitSlash (s : String) : List String :=
  (splitChar (Char.ofNat 47) s.data).map (fun g => ⟨g⟩)

/-- The check `".." in vfs_path.split("/")` from `_validate_path`. -/
def hasDotDotSeg (s : String) : Bool :=
  (splitChar (Char.ofNat 47) s.data).any (fun seg => seg == [Char.ofNat 46, Char.ofNat 46])

/-- Python `s.rsplit("/", 1)` as a pair: `(before-last-slash, after-last-slash)`;
when `s` has no slash both components are `s` itself (Python returns `[s]`,
and the code indexes it with `[0]` and `[-1]`). -/
def rsplit1 (s : String) : String × String :=
  let parts := splitChar (Char.ofNat 47) s.data
  if parts.length ≤ 1 then (s, s)
  else (⟨joinChar (Char.ofNat 47) parts.dropLast⟩, ⟨parts.getLastD []⟩)

/-- Python `path.rsplit("/", 1)[-1]`. -/
def basenameStr (s : String) : String := (rsplit1 s).2

/-- Python `path.rsplit("/", 1)[0] or "/"`. -/
def parentOr (s : String) : String :=
  if (rsplit1 s).1 = "" then "/" else (rsplit1 s).1

/-- Python `f"/{name}" if parent == "/" else f"{parent}/{name}"`, the child-path
construction used throughout `FileSystemService` and `generate_unique_name`. -/
def childPath (parent name : String) : String :=
  if parent = "/" then "/" ++ name else parent ++ "/" ++ name

/-- Python slicing `s[n:]` (by characters, as the embedding measures lengths). -/
def strDrop (s : String) (n : Nat) : String := ⟨s.data.drop n⟩

/-- Python `s.startswith(pre)`. -/
def strStartsWith (s pre : String) : Bool := pre.data.isPrefixOf s.data

/-- Length in characters, matching Python `len` on the embedded strings. -/
def strLen (s : String) : Nat := s.data.length

/-- A single-quote character, kept out of string literals. -/
def squote : Char := Char.ofNat 39

/-! ### HTTP errors -/

/-- An `HTTPException`: status code and detail message. -/
structure HttpErr where
  status : Nat
  detail : String
deriving DecidableEq, Repr

/-- Detail text of the path-traversal rejection in `_validate_path`. -/
def validationDetail : String :=
  "Path " ++ String.singleton squote ++ ".." ++ String.singleton squote
    ++ " segmentini o" ++ String.singleton squote ++ "z ichiga olmaydi"

/-- The `_validate_path` helper: reject any path one of whose `/`-separated
segments is exactly `..` (HTTP 400); a segment merely containing `..` passes. -/
def validatePath (p : String) : Except HttpErr Unit :=
  if hasDotDotSeg p then .error ⟨400, validationDetail⟩ else .ok ()

/-! ### Container filesystem state

The filesystem inside the user container is a flat list of entries keyed
by absolute container path.  Well-formed states have pairwise distinct
paths; theorems carry that as a hypothesis where they need it. -/

/-- File or directory. -/
inductive NodeKind where
  | file
  | dir
deriving DecidableEq, Repr

/-- One filesystem object: absolute container path, kind, and (for files)
its text content. -/
structure Entry where
  path : String
  kind : NodeKind
  content : String
deriving DecidableEq, Repr

/-- The container filesystem. -/
structure Fs where
  entries : List Entry
deriving DecidableEq, Repr

def Fs.paths (fs : Fs) : List String := fs.entries.map Entry.path

def Fs.existsPath (fs : Fs) (p : String) : Bool :=
  fs.entries.any (fun e => e.path == p)

def Fs.find? (fs : Fs) (p : String) : Option Entry :=
  fs.entries.find? (fun e => e.path == p)

def Fs.isDirAt (fs : Fs) (p : String) : Bool :=
  match fs.find? p with
  | some e => e.kind == NodeKind.dir
  | none => false

def Fs.isFileAt (fs : Fs) (p : String) : Bool :=
  match fs.find? p with
  | some e => e.kind == NodeKind.file
  | none => false

/-- Membership of `p` in the subtree rooted at `root` (the path itself or
anything under `root ++ "/"`), the reach of `rm -rf` / `mv` / `cp -r`. -/
def inSubtree (root p : String) : Bool :=
  p == root || strStartsWith p (root ++ "/")

/-- Path of a subtree member after the subtree root moves. -/
def relocate (oldRoot newRoot p : String) : String :=
  newRoot ++ strDrop p (strLen oldRoot)

/-- Effect of `rm -rf root`. -/
def Fs.removeTree (fs : Fs) (root : String) : Fs :=
  ⟨fs.entries.filter (fun e => !(inSubtree root e.path))⟩

/-- Relocation of the subtree at `oldRoot` to `newRoot` (entries outside the
subtree are unchanged). -/
def Fs.moveTree (fs : Fs) (oldRoot newRoot : String) : Fs :=
  ⟨fs.entries.map (fun e =>
    if inSubtree oldRoot e.path then { e with path := relocate oldRoot newRoot e.path } else e)⟩

/-- Effect of `mv src dst` for the cases the services exercise: the source
must exist and differ from the target (`mv` rejects "same file"); an
existing regular target is replaced (POSIX directory-into-directory
nesting is not modelled — every caller in the services first ensures the
target path is free). -/
def mvCmd (fs : Fs) (src dst : String) : Option Fs :=
  if fs.existsPath src = true ∧ src ≠ dst then some ((fs.removeTree dst).moveTree src dst)
  else none

/-- Effect of `cp -r src dst` under the same target-is-free caveat as
`mvCmd`: duplicates the subtree at `src` to `dst`, originals unchanged. -/
def cpCmd (fs : Fs) (src dst : String) : Option Fs :=
  if fs.existsPath src then
    some ⟨(fs.removeTree dst).entries ++
      (fs.entries.filter (fun e => inSubtree src e.path)).map
        (fun e => { e with path := relocate src dst e.path })⟩
  else none

/-- All slash-delimited ancestor paths of `cp` including `cp` itself
(`/a/b/c ↦ [/a, /a/b, /a/b/c]`), the set of directories `mkdir -p` ensures. -/
def slashAncestors (cp : String) : List String :=
  let parts := splitChar (Char.ofNat 47) cp.data
  (List.range (parts.length - 1)).map
    (fun k => ⟨joinChar (Char.ofNat 47) (parts.take (k + 2))⟩)

def Fs.addDirIfMissing (fs : Fs) (p : String) : Fs :=
  if fs.existsPath p then fs else ⟨fs.entries ++ [⟨p, NodeKind.dir, ""⟩]⟩

/-- Effect of `mkdir -p cp`: create every missing ancestor; fail when an
ancestor exists as a regular file. -/
def mkdirP (fs : Fs) (cp : String) : Option Fs :=
  if (slashAncestors cp).any (fun a => fs.isFileAt a) then none
  else some ((slashAncestors cp).foldl Fs.addDirIfMissing fs)

/-! ### Embedded Python scripts

The service builds each in-container program by interpolating the
container path (and for search, the lightly escaped query) into a Python
source template with `str.format` / f-strings.  The texts below are the
post-interpolation templates, split at the interpolation slots. -/

/-- Argument vector passed to the container exec channel. -/
abbrev Argv := List String

def pyArgv (script : String) : Argv := ["python3", "-c", script]

def statScriptPre : String :=
  "\nimport json, os, mimetypes, sys\n\npath = \""

def statScriptSuf : String :=
  "\"\ntry:\n    st = os.stat(path)\n    is_dir = os.path.isdir(path)\n    name = os.path.basename(path) or \"/\"\n    mime, _ = mimetypes.guess_type(name)\n    print(json.dumps(\x7b\n        \"name\": name,\n        \"path\": path,\n        \"type\": \"directory\" if is_dir else \"file\",\n        \"size\": 0 if is_dir else st.st_size,\n        \"mime_type\": mime,\n        \"mtime\": st.st_mtime,\n        \"ctime\": st.st_ctime,\n    \x7d))\nexcept FileNotFoundError:\n    print(json.dumps(\x7b\"error\": \"not_found\"\x7d))\n    sys.exit(1)\nexcept PermissionError:\n    print(json.dumps(\x7b\"error\": \"permission_denied\"\x7d))\n    sys.exit(1)\n"

/-- `_STAT_SCRIPT.format(container_path=cp)`. -/
def statScript (cp : String) : String := statScriptPre ++ cp ++ statScriptSuf

def lsScriptPre : String :=
  "\nimport json, os, mimetypes, sys\n\npath = \""

def lsScriptSuf : String :=
  "\"\ntry:\n    entries = sorted(os.scandir(path), key=lambda e: (not e.is_dir(), e.name.lower()))\nexcept FileNotFoundError:\n    print(json.dumps(\x7b\"error\": \"not_found\"\x7d))\n    sys.exit(1)\nexcept PermissionError:\n    print(json.dumps(\x7b\"error\": \"permission_denied\"\x7d))\n    sys.exit(1)\n\nresult = []\nfor entry in entries:\n    try:\n        st = entry.stat(follow_symlinks=False)\n    except OSError:\n        continue\n    mime, _ = mimetypes.guess_type(entry.name)\n    is_dir = entry.is_dir(follow_symlinks=False)\n    result.append(\x7b\n        \"name\": entry.name,\n        \"path\": entry.path,\n        \"type\": \"directory\" if is_dir else \"file\",\n        \"size\": 0 if is_dir else st.st_size,\n        \"mime_type\": mime,\n        \"mtime\": st.st_mtime,\n        \"ctime\": st.st_ctime,\n    \x7d)\nprint(json.dumps(result))\n"

/-- `_LS_SCRIPT.format(container_path=cp)`. -/
def lsScript (cp : String) : String := lsScriptPre ++ cp ++ lsScriptSuf

def searchScriptPre : String :=
  "\nimport json, os, mimetypes, sys\n\nquery = \""

def searchScriptMid : String :=
  "\".lower()\nscope = \""

def searchScriptSuf : String :=
  "\"\nresults = []\nmax_results = 50\n\nfor root, dirs, files in os.walk(scope):\n    for name in dirs + files:\n        if query in name.lower():\n            full_path = os.path.join(root, name)\n            try:\n                st = os.stat(full_path)\n                is_dir = os.path.isdir(full_path)\n                mime, _ = mimetypes.guess_type(name)\n                results.append(\x7b\n                    \"name\": name,\n                    \"path\": full_path,\n                    \"type\": \"directory\" if is_dir else \"file\",\n                    \"size\": 0 if is_dir else st.st_size,\n                    \"mime_type\": mime,\n                    \"mtime\": st.st_mtime,\n                    \"ctime\": st.st_ctime,\n                \x7d)\n                if len(results) >= max_results:\n                    break\n            except OSError:\n                continue\n    if len(results) >= max_results:\n        break\n\nprint(json.dumps(results))\n"

/-- `_SEARCH_SCRIPT.format(query=safeQuery, scope_path=scopeC)`. -/
def searchScript (safeQ scopeC : String) : String :=
  searchScriptPre ++ safeQ ++ searchScriptMid ++ scopeC ++ searchScriptSuf

def readScriptPre : String :=
  "\nimport json, os, sys\n\npath = \""

def readScriptMid : String :=
  "\"\nmax_size = "

def readScriptSuf : String :=
  "\n\nif not os.path.exists(path):\n    print(json.dumps(\x7b\"error\": \"not_found\"\x7d))\n    sys.exit(0)\n\nif os.path.isdir(path):\n    print(json.dumps(\x7b\"error\": \"is_directory\"\x7d))\n    sys.exit(0)\n\nsize = os.path.getsize(path)\nif size > max_size:\n    print(json.dumps(\x7b\"error\": \"too_large\", \"size\": size\x7d))\n    sys.exit(0)\n\ntry:\n    with open(path, \"r\", encoding=\"utf-8\") as f:\n        content = f.read()\n    print(json.dumps(\x7b\"content\": content, \"size\": size, \"encoding\": \"utf-8\"\x7d))\nexcept UnicodeDecodeError:\n    print(json.dumps(\x7b\"error\": \"binary_file\"\x7d))\n    sys.exit(0)\n"

/-- The `read_file` f-string script. -/
def readScript (cp : String) (maxSize : Nat) : String :=
  readScriptPre ++ cp ++ readScriptMid ++ Nat.repr maxSize ++ readScriptSuf

def writeScriptPre : String :=
  "\nimport json, os, sys, base64\n\npath = \""

def writeScriptMid : String :=
  "\"\nencoded = \""

def writeScriptSuf : String :=
  "\"\n\ntry:\n    content = base64.b64decode(encoded).decode(\"utf-8\")\n    parent = os.path.dirname(path)\n    if parent and not os.path.exists(parent):\n        os.makedirs(parent, exist_ok=True)\n    with open(path, \"w\", encoding=\"utf-8\") as f:\n        f.write(content)\n    print(json.dumps(\x7b\"ok\": True\x7d))\nexcept Exception as e:\n    print(json.dumps(\x7b\"error\": str(e)\x7d))\n    sys.exit(1)\n"

/-- The `write_file` f-string script; `encoded` is the base64 payload. -/
def writeScript (cp encoded : String) : String :=
  writeScriptPre ++ cp ++ writeScriptMid ++ encoded ++ writeScriptSuf

/-! ### Python double-quoted string literal scanning

Each script receives its user-controlled data inside a `"…"` literal.
`pyInterior` models how the Python lexer consumes a literal slot: it
returns the decoded value when the whole slot parses as the interior of
one literal, and `none` when the slot breaks the script (an unescaped
quote ends the literal early, a raw newline is a syntax error, a trailing
backslash consumes the closing quote).  Exotic escapes (`\xNN`, octal)
are approximated by the unknown-escape rule; no theorem depends on them. -/

/-- Value of a backslash escape `\c` in a Python double-quoted literal. -/
def pyEscValue (c : Char) : List Char :=
  if c = Char.ofNat 110 then [Char.ofNat 10]
  else if c = Char.ofNat 116 then [Char.ofNat 9]
  else if c = Char.ofNat 114 then [Char.ofNat 13]
  else if c = Char.ofNat 98 then [Char.ofNat 8]
  else if c = Char.ofNat 102 then [Char.ofNat 12]
  else if c = Char.ofNat 118 then [Char.ofNat 11]
  else if c = Char.ofNat 97 then [Char.ofNat 7]
  else if c = Char.ofNat 92 then [Char.ofNat 92]
  else if c = Char.ofNat 34 then [Char.ofNat 34]
  else if c = squote then [squote]
  else [Char.ofNat 92, c]

/-- Decoded value of an interpolation slot, `none` when the slot does not
lex as the interior of exactly one double-quoted literal. -/
def pyInterior : List Char → Option (List Char)
  | [] => some []
  | c :: cs =>
    if c = Char.ofNat 92 then
      match cs with
      | [] => none
      | e :: rest => (pyInterior rest).map (fun v => pyEscValue e ++ v)
    else if c = Char.ofNat 34 then none
    else if c = Char.ofNat 10 then none
    else (pyInterior cs).map (fun v => c :: v)

/-- A string whose characters keep a `"…"` interpolation slot intact:
no double quote, no backslash, no newline. -/
def cleanStr (s : String) : Bool :=
  s.data.all (fun ch =>
    !(ch == Char.ofNat 34) && !(ch == Char.ofNat 92) && !(ch == Char.ofNat 10))

/-- Per-character substitution, the effect of Python `str.replace` with a
one-character pattern. -/
def replaceChar (old : Char) (new : List Char) : List Char → List Char
  | [] => []
  | c :: cs => if c = old then new ++ replaceChar old new cs else c :: replaceChar old new cs

/-- The query escaping in `ContainerFsService.search`: replace every `"`
by backslash-quote, then every single quote by backslash-single-quote. -/
def safeQuery (q : String) : String :=
  ⟨replaceChar squote [Char.ofNat 92, squote]
    (replaceChar (Char.ofNat 34) [Char.ofNat 92, Char.ofNat 34] q.data)⟩

/-! ### Base64 (used by `write_file` for the content payload) -/

def b64Alphabet : List Char :=
  "ABCDEFGHIJKLMNOPQRSTUVWXYZabcdefghijklmnopqrstuvwxyz0123456789+/".data

def b64Digit (n : Nat) : Char := b64Alphabet.getD n (Char.ofNat 65)

def b64Pad : Char := Char.ofNat 61

def b64Encode : List Nat → List Char
  | [] => []
  | [a] => [b64Digit (a / 4), b64Digit (a % 4 * 16), b64Pad, b64Pad]
  | [a, b] => [b64Digit (a / 4), b64Digit (a % 4 * 16 + b / 16), b64Digit (b % 16 * 4), b64Pad]
  | a :: b :: c :: rest =>
    b64Digit (a / 4) :: b64Digit (a % 4 * 16 + b / 16) ::
      b64Digit (b % 16 * 4 + c / 64) :: b64Digit (c % 64) :: b64Encode rest

/-- `base64.b64encode(content.encode("utf-8")).decode("ascii")`. -/
def b64OfString (s : String) : String :=
  ⟨b64Encode (s.toUTF8.data.toList.map UInt8.toNat)⟩

/-! ### ContainerFsService -/

/-- The service object: a container name (opaque here) and the base path
to which the VFS root is anchored (`/home/aisu` in production). -/
structure CFS where
  containerName : String
  basePath : String
deriving DecidableEq, Repr

/-- `_vfs_to_container`: validate, then prefix with the base path. -/
def CFS.vfsToContainer (c : CFS) (p : String) : Except HttpErr String :=
  match validatePath p with
  | .error e => .error e
  | .ok _ => if p = "/" then .ok c.basePath else .ok (c.basePath ++ p)

/-- `_container_to_vfs`: strip the base-path prefix. -/
def CFS.containerToVfs (c : CFS) (cp : String) : String :=
  if cp = c.basePath ∨ cp = c.basePath ++ "/" then "/"
  else if strStartsWith cp (c.basePath ++ "/") then strDrop cp (strLen c.basePath)
  else cp

/-- Stat summary of an entry as the in-container scripts report it
(`name`, `type`, `size`; mime and timestamps are not modelled). -/
structure NodeInfo where
  name : String
  kind : NodeKind
  size : Nat
deriving DecidableEq, Repr

def entryInfo (e : Entry) : NodeInfo :=
  { name := if basenameStr e.path = "" then "/" else basenameStr e.path,
    kind := e.kind,
    size := match e.kind with | .dir => 0 | .file => strLen e.content }

/-- `exists`: `test -e` on the translated path (argv transport, no script). -/
def CFS.existsOp (c : CFS) (fs : Fs) (p : String) : Except HttpErr Bool × List Argv :=
  match c.vfsToContainer p with
  | .error e => (.error e, [])
  | .ok cp => (.ok (fs.existsPath cp), [["test", "-e", cp]])

/-- `stat_path`: runs `_STAT_SCRIPT` with the container path interpolated
into its `path = "…"` literal.  The script prints an error JSON and exits
nonzero for a missing path, and `stat_path` maps any nonzero exit (also a
broken script) to `None`. -/
def CFS.statPath (c : CFS) (fs : Fs) (p : String) : Except HttpErr (Option NodeInfo) × List Argv :=
  match c.vfsToContainer p with
  | .error e => (.error e, [])
  | .ok cp =>
    let tr := [pyArgv (statScript cp)]
    match pyInterior cp.data with
    | none => (.ok none, tr)
    | some real =>
      match fs.find? ⟨real⟩ with
      | some e => (.ok (some (entryInfo e)), tr)
      | none => (.ok none, tr)

/-- Immediate children of a directory, sorted as the scripts sort them:
directories first, then case-insensitive name. -/
def lsChildren (fs : Fs) (dirC : String) : List NodeInfo :=
  let kids := fs.entries.filter (fun e => (rsplit1 e.path).1 == dirC && e.path != dirC)
  (kids.map entryInfo).mergeSort (fun a b =>
    decide ((a.kind == NodeKind.dir && b.kind != NodeKind.dir) = true ∨
      ((a.kind == NodeKind.dir) = (b.kind == NodeKind.dir) ∧ a.name.toLower ≤ b.name.toLower)))

/-- Stdout discriminant of `_LS_SCRIPT` together with its exit code. -/
inductive LsOut where
  | items (l : List NodeInfo)
  | errTag (tag : String)
deriving DecidableEq, Repr

/-- Behaviour of `_LS_SCRIPT` on a well-formed interpolation: JSON of the
children with exit 0, or `{"error": "not_found"}` with exit 1 (a denied
scandir would analogously yield `permission_denied` with exit 1). -/
def lsRun (fs : Fs) (real : String) : LsOut × Nat :=
  if fs.isDirAt real then (.items (lsChildren fs real), 0)
  else (.errTag "not_found", 1)

/-- `list_directory`: `_exec_python` raises 500 on any nonzero exit before
the service inspects the JSON, then the service maps error discriminants.
(The script exits 1 exactly when it prints an error discriminant, which is
what claim C7 is about.) -/
def CFS.listDirectory (c : CFS) (fs : Fs) (p : String) :
    Except HttpErr (List NodeInfo) × List Argv :=
  match validatePath p with
  | .error e => (.error e, [])
  | .ok _ =>
  match c.vfsToContainer p with
  | .error e => (.error e, [])
  | .ok cp =>
    let tr := [pyArgv (lsScript cp)]
    match pyInterior cp.data with
    | none => (.error ⟨500, "Filesystem operation failed"⟩, tr)
    | some real =>
      let (out, code) := lsRun fs ⟨real⟩
      if code ≠ 0 then (.error ⟨500, "Filesystem operation failed"⟩, tr)
      else
        match out with
        | .items l => (.ok l, tr)
        | .errTag tag =>
          if tag = "not_found" then (.error ⟨404, "Directory not found: " ++ p⟩, tr)
          else if tag = "permission_denied" then (.error ⟨403, "Permission denied: " ++ p⟩, tr)
          else (.ok [], tr)

/-- Hits of the search walk: names under the scope containing the
(case-folded) query, capped at 50. -/
def containsSeq : List Char → List Char → Bool
  | hay, needle =>
    if needle.isPrefixOf hay then true
    else
      match hay with
      | [] => false
      | _ :: t => containsSeq t needle

def searchHits (fs : Fs) (query scopeC : String) : List NodeInfo :=
  ((fs.entries.filter (fun e =>
    strStartsWith e.path (scopeC ++ "/") &&
      containsSeq (entryInfo e).name.toLower.data query.toLower.data)).take 50).map entryInfo

/-- `search`: validates the scope, escapes quotes in the query, and
interpolates both into `_SEARCH_SCRIPT`.  The effective query/scope are
whatever the Python lexer reads back out of the two literals. -/
def CFS.search (c : CFS) (fs : Fs) (q : String) (scopeVfs : String) :
    Except HttpErr (List NodeInfo) × List Argv :=
  match validatePath scopeVfs with
  | .error e => (.error e, [])
  | .ok _ =>
  match c.vfsToContainer scopeVfs with
  | .error e => (.error e, [])
  | .ok scopeC =>
    let tr := [pyArgv (searchScript (safeQuery q) scopeC)]
    match pyInterior (safeQuery q).data, pyInterior scopeC.data with
    | some qReal, some sReal =>
      (.ok (searchHits fs (String.mk qReal).toLower ⟨sReal⟩), tr)
    | _, _ => (.error ⟨500, "Filesystem operation failed"⟩, tr)

/-- `create_file`: `touch` on the translated path. -/
def CFS.createFile (c : CFS) (fs : Fs) (p : String) : Except HttpErr Fs × List Argv :=
  match c.vfsToContainer p with
  | .error e => (.error e, [])
  | .ok cp =>
    let tr := [["touch", cp]]
    if fs.existsPath cp then (.ok fs, tr)
    else if fs.isDirAt (rsplit1 cp).1 then
      (.ok ⟨fs.entries ++ [⟨cp, NodeKind.file, ""⟩]⟩, tr)
    else (.error ⟨500, "Failed to create file: " ++ p⟩, tr)

/-- `create_directory`: `mkdir -p` on the translated path. -/
def CFS.createDirectory (c : CFS) (fs : Fs) (p : String) : Except HttpErr Fs × List Argv :=
  match c.vfsToContainer p with
  | .error e => (.error e, [])
  | .ok cp =>
    let tr := [["mkdir", "-p", cp]]
    match mkdirP fs cp with
    | some fs₁ => (.ok fs₁, tr)
    | none => (.error ⟨500, "Failed to create directory: " ++ p⟩, tr)

/-- `rename`: `mv` between two translated paths. -/
def CFS.rename (c : CFS) (fs : Fs) (oldVfs newVfs : String) : Except HttpErr Fs × List Argv :=
  match validatePath oldVfs with
  | .error e => (.error e, [])
  | .ok _ =>
  match validatePath newVfs with
  | .error e => (.error e, [])
  | .ok _ =>
  match c.vfsToContainer oldVfs, c.vfsToContainer newVfs with
  | .ok oldC, .ok newC =>
    let tr := [["mv", oldC, newC]]
    match mvCmd fs oldC newC with
    | some fs₁ => (.ok fs₁, tr)
    | none => (.error ⟨500, "Failed to rename: " ++ oldVfs⟩, tr)
  | .error e, _ => (.error e, [])
  | _, .error e => (.error e, [])

/-- `move`: `mv src destParent/`; returns the new VFS path
`destParent/basename(src)`. -/
def CFS.move (c : CFS) (fs : Fs) (srcVfs destParentVfs : String) :
    Except HttpErr (Fs × String) × List Argv :=
  match validatePath srcVfs with
  | .error e => (.error e, [])
  | .ok _ =>
  match validatePath destParentVfs with
  | .error e => (.error e, [])
  | .ok _ =>
  match c.vfsToContainer srcVfs, c.vfsToContainer destParentVfs with
  | .ok srcC, .ok destC =>
    let tr := [["mv", srcC, destC ++ "/"]]
    let name := basenameStr srcVfs
    if fs.isDirAt destC then
      match mvCmd fs srcC (destC ++ "/" ++ name) with
      | some fs₁ => (.ok (fs₁, childPath destParentVfs name), tr)
      | none => (.error ⟨500, "Failed to move: " ++ srcVfs⟩, tr)
    else (.error ⟨500, "Failed to move: " ++ srcVfs⟩, tr)
  | .error e, _ => (.error e, [])
  | _, .error e => (.error e, [])

/-- `copy`: `cp -r src destParent/`; returns the new VFS path. -/
def CFS.copy (c : CFS) (fs : Fs) (srcVfs destParentVfs : String) :
    Except HttpErr (Fs × String) × List Argv :=
  match validatePath srcVfs with
  | .error e => (.error e, [])
  | .ok _ =>
  match validatePath destParentVfs with
  | .error e => (.error e, [])
  | .ok _ =>
  match c.vfsToContainer srcVfs, c.vfsToContainer destParentVfs with
  | .ok srcC, .ok destC =>
    let tr := [["cp", "-r", srcC, destC ++ "/"]]
    let name := basenameStr srcVfs
    if fs.isDirAt destC then
      match cpCmd fs srcC (destC ++ "/" ++ name) with
      | some fs₁ => (.ok (fs₁, childPath destParentVfs name), tr)
      | none => (.error ⟨500, "Failed to copy: " ++ srcVfs⟩, tr)
    else (.error ⟨500, "Failed to copy: " ++ srcVfs⟩, tr)
  | .error e, _ => (.error e, [])
  | _, .error e => (.error e, [])

/-- `delete`: forbid root, then `rm -rf` the translated path. -/
def CFS.delete (c : CFS) (fs : Fs) (p : String) : Except HttpErr Fs × List Argv :=
  match validatePath p with
  | .error e => (.error e, [])
  | .ok _ =>
  if p = "/" then (.error ⟨400, "Cannot delete root"⟩, [])
  else
    match c.vfsToContainer p with
    | .error e => (.error e, [])
    | .ok cp => (.ok (fs.removeTree cp), [["rm", "-rf", cp]])

/-- First-free-counter scan shared by the `move_to_trash` collision loop
and `generate_unique_name`: probes counters `n, n+1, …` until a probe
reports free; each probe is an `exists` call contributing its exec trace.
The fuel is always instantiated so that a free counter is in range. -/
def freeScan (probe : Nat → Except HttpErr Bool × List Argv) :
    Nat → Nat → Except HttpErr Nat × List Argv
  | 0, n => (.ok n, [])
  | fuel + 1, n =>
    match probe n with
    | (.error e, tr) => (.error e, tr)
    | (.ok b, tr) =>
      if b then
        let r := freeScan probe fuel (n + 1)
        (r.1, tr ++ r.2)
      else (.ok n, tr)

/-- `move_to_trash`: compute `/.Trash/<name>`, resolve collisions with the
`name 2, name 3, …` loop, ensure `/.Trash` exists, then `mv`. -/
def CFS.moveToTrash (c : CFS) (fs : Fs) (p : String) :
    Except HttpErr (Fs × String) × List Argv :=
  match validatePath p with
  | .error e => (.error e, [])
  | .ok _ =>
  if p = "/" then (.error ⟨400, "Cannot trash root"⟩, [])
  else
    let name := basenameStr p
    match c.vfsToContainer ("/.Trash/" ++ name) with
    | .error e => (.error e, [])
    | .ok _tc =>
      match c.existsOp fs ("/.Trash/" ++ name) with
      | (.error e, _) => (.error e, [])
      | (.ok collided, tr0) =>
        let scan :=
          if collided then
            freeScan (fun n => c.existsOp fs ("/.Trash/" ++ name ++ " " ++ Nat.repr n))
              (fs.entries.length + 1) 2
          else (.ok 0, [])
        match scan with
        | (.error e, trL) => (.error e, tr0 ++ trL)
        | (.ok n, trL) =>
          let finalName := if collided then name ++ " " ++ Nat.repr n else name
          let trashVfs := "/.Trash/" ++ finalName
          match c.vfsToContainer trashVfs with
          | .error e => (.error e, tr0 ++ trL)
          | .ok trashC =>
            match c.createDirectory fs "/.Trash" with
            | (.error e, trD) => (.error e, tr0 ++ trL ++ trD)
            | (.ok fs₁, trD) =>
              match c.vfsToContainer p with
              | .error e => (.error e, tr0 ++ trL ++ trD)
              | .ok srcC =>
                let trM := [["mv", srcC, trashC]]
                match mvCmd fs₁ srcC trashC with
                | some fs₂ => (.ok (fs₂, trashVfs), tr0 ++ trL ++ trD ++ trM)
                | none =>
                  (.error ⟨500, "Failed to move to trash: " ++ p⟩, tr0 ++ trL ++ trD ++ trM)

/-- `read_file`: the read script exits 0 on every discriminant, so the
service-side mapping to 404/400/413 is live (contrast `list_directory`).
The 415 non-UTF-8 branch has no counterpart for Lean strings. -/
def CFS.readFile (c : CFS) (fs : Fs) (p : String) (maxSize : Nat := 2 * 1024 * 1024) :
    Except HttpErr (String × Nat) × List Argv :=
  match c.vfsToContainer p with
  | .error e => (.error e, [])
  | .ok cp =>
    let tr := [pyArgv (readScript cp maxSize)]
    match pyInterior cp.data with
    | none => (.error ⟨500, "Filesystem operation failed"⟩, tr)
    | some real =>
      match fs.find? ⟨real⟩ with
      | none => (.error ⟨404, "File not found: " ++ p⟩, tr)
      | some e =>
        if e.kind == NodeKind.dir then (.error ⟨400, "Path is a directory: " ++ p⟩, tr)
        else if strLen e.content > maxSize then (.error ⟨413, "File too large"⟩, tr)
        else (.ok (e.content, strLen e.content), tr)

/-- Replace or create the file at `p` with the given content. -/
def Fs.setFile (fs : Fs) (p content : String) : Fs :=
  if fs.existsPath p then
    ⟨fs.entries.map (fun e => if e.path == p then { e with content := content } else e)⟩
  else ⟨fs.entries ++ [⟨p, NodeKind.file, content⟩]⟩

/-- `write_file`: the content travels base64-encoded; the script makes the
parent directories and writes the decoded text. -/
def CFS.writeFile (c : CFS) (fs : Fs) (p content : String) : Except HttpErr Fs × List Argv :=
  match c.vfsToContainer p with
  | .error e => (.error e, [])
  | .ok cp =>
    let tr := [pyArgv (writeScript cp (b64OfString content))]
    match pyInterior cp.data with
    | none => (.error ⟨500, "Filesystem operation failed"⟩, tr)
    | some real =>
      let parent := (rsplit1 (⟨real⟩ : String)).1
      let dirsDone : Option Fs :=
        if parent ≠ "" && !(fs.existsPath parent) then mkdirP fs parent else some fs
      match dirsDone with
      | none => (.error ⟨500, "Write failed"⟩, tr)
      | some fs₁ =>
        if fs₁.isDirAt ⟨real⟩ then (.error ⟨500, "Write failed"⟩, tr)
        else (.ok (fs₁.setFile ⟨real⟩ content), tr)

/-- `generate_unique_name`: return `base` when `parent/base` is absent,
else the first free `base N` with `N ≥ 2`. -/
def CFS.generateUniqueName (c : CFS) (fs : Fs) (parentVfs baseName : String) :
    Except HttpErr String × List Argv :=
  match validatePath parentVfs with
  | .error e => (.error e, [])
  | .ok _ =>
    match c.existsOp fs (childPath parentVfs baseName) with
    | (.error e, _) => (.error e, [])
    | (.ok b, tr0) =>
      if b then
        match freeScan (fun n => c.existsOp fs (childPath parentVfs (baseName ++ " " ++ Nat.repr n)))
            (fs.entries.length + 1) 2 with
        | (.error e, trL) => (.error e, tr0 ++ trL)
        | (.ok n, trL) => (.ok (baseName ++ " " ++ Nat.repr n), tr0 ++ trL)
      else (.ok baseName, tr0)

/-! ### Metadata store

`FileSystemNode` rows for one user: `(user_id, path)` is unique, so the
embedding fixes the user and keys rows by path. -/

/-- One metadata row (desktop position and/or trash provenance). -/
structure MetaRow where
  path : String
  name : String
  isTrashed : Bool
  originalPath : Option String
  desktopX : Option Nat
  desktopY : Option Nat
deriving DecidableEq, Repr

/-- The per-user metadata table. -/
structure Db where
  rows : List MetaRow
deriving DecidableEq, Repr

def Db.find? (db : Db) (p : String) : Option MetaRow :=
  db.rows.find? (fun r => r.path == p)

/-- `_upsert_metadata`: update the row at `path` (desktop fields only when
given, trash fields unconditionally) or insert a fresh row. -/
def Db.upsertMeta (db : Db) (p : String) (dx dy : Option Nat) (trashed : Bool)
    (orig : Option String) : Db :=
  if db.rows.any (fun r => r.path == p) then
    ⟨db.rows.map (fun r =>
      if r.path == p then
        { r with
          desktopX := match dx with | some v => some v | none => r.desktopX,
          desktopY := match dy with | some v => some v | none => r.desktopY,
          isTrashed := trashed,
          originalPath := orig }
      else r)⟩
  else
    ⟨db.rows ++ [{ path := p,
                   name := if basenameStr p = "" then "/" else basenameStr p,
                   isTrashed := trashed,
                   originalPath := orig,
                   desktopX := dx,
                   desktopY := dy }]⟩

/-- `_delete_metadata`: delete the row whose path is exactly `p`. -/
def Db.deleteMeta (db : Db) (p : String) : Db :=
  ⟨db.rows.filter (fun r => !(r.path == p))⟩

/-- `_update_metadata_path`: repoint the row whose path is exactly
`old` to `new` (descendant rows are not touched). -/
def Db.updateMetaPath (db : Db) (old new : String) : Db :=
  ⟨db.rows.map (fun r =>
    if r.path == old then
      { r with path := new, name := if basenameStr new = "" then "/" else basenameStr new }
    else r)⟩

/-! ### FileSystemService -/

/-- The orchestrator composing `ContainerFsService` with the metadata
store; state is the pair of container filesystem and metadata table. -/
structure MoveResult where
  oldPath : String
  newPath : String
  fs : Fs
  db : Db
deriving DecidableEq, Repr

structure NodeResult where
  path : String
  fs : Fs
  db : Db
deriving DecidableEq, Repr

structure DeleteResult where
  path : String
  isTrashed : Bool
  originalPath : Option String
  fs : Fs
  db : Db
deriving DecidableEq, Repr

/-- `create_node`: check the parent, derive the unique name, create the
file or directory, stat it back. -/
def createNode (c : CFS) (fs : Fs) (db : Db) (parentPath nodeName nodeType : String) :
    Except HttpErr NodeResult :=
  match (c.statPath fs parentPath).1 with
  | .error e => .error e
  | .ok none => .error ⟨404, "Parent not found: " ++ parentPath⟩
  | .ok (some parentInfo) =>
    if parentInfo.kind ≠ NodeKind.dir then .error ⟨400, "Parent is not a directory"⟩
    else
      match (c.generateUniqueName fs parentPath nodeName).1 with
      | .error e => .error e
      | .ok uniqueName =>
        let newVfs := childPath parentPath uniqueName
        let made : Except HttpErr Fs :=
          if nodeType = "directory" then (c.createDirectory fs newVfs).1
          else (c.createFile fs newVfs).1
        match made with
        | .error e => .error e
        | .ok fs₁ =>
          match (c.statPath fs₁ newVfs).1 with
          | .error e => .error e
          | .ok none => .error ⟨500, "Node created but stat failed"⟩
          | .ok (some _) => .ok ⟨newVfs, fs₁, db⟩

/-- `rename_node`: reject root, 404 when absent, 409 when the sibling name
exists, rename content, repoint the single metadata row. -/
def renameNode (c : CFS) (fs : Fs) (db : Db) (p newName : String) :
    Except HttpErr MoveResult :=
  if p = "/" then .error ⟨400, "Cannot rename root"⟩
  else
    match (c.existsOp fs p).1 with
    | .error e => .error e
    | .ok false => .error ⟨404, "Node not found: " ++ p⟩
    | .ok true =>
      let parentPath := parentOr p
      let newPath := childPath parentPath newName
      match (c.existsOp fs newPath).1 with
      | .error e => .error e
      | .ok true => .error ⟨409, "Name already exists: " ++ newName⟩
      | .ok false =>
        match (c.rename fs p newPath).1 with
        | .error e => .error e
        | .ok fs₁ =>
          let db₁ := db.updateMetaPath p newPath
          match (c.statPath fs₁ newPath).1 with
          | .error e => .error e
          | .ok none => .error ⟨500, "Renamed but stat failed"⟩
          | .ok (some _) => .ok ⟨p, newPath, fs₁, db₁⟩

/-- `move_node`: reject root and self-into-descendant, derive the unique
name in the destination, pre-rename when the name changes, move, repoint
the single metadata row. -/
def moveNode (c : CFS) (fs : Fs) (db : Db) (srcPath destParentPath : String) :
    Except HttpErr MoveResult :=
  if srcPath = "/" then .error ⟨400, "Cannot move root"⟩
  else if destParentPath = srcPath ∨ strStartsWith destParentPath (srcPath ++ "/") then
    .error ⟨400, "Cannot move into itself or its descendant"⟩
  else
    match (c.existsOp fs srcPath).1 with
    | .error e => .error e
    | .ok false => .error ⟨404, "Source not found: " ++ srcPath⟩
    | .ok true =>
      match (c.statPath fs destParentPath).1 with
      | .error e => .error e
      | .ok none => .error ⟨404, "Destination not found: " ++ destParentPath⟩
      | .ok (some destInfo) =>
        if destInfo.kind ≠ NodeKind.dir then .error ⟨400, "Destination is not a directory"⟩
        else
          let sourceName := basenameStr srcPath
          match (c.generateUniqueName fs destParentPath sourceName).1 with
          | .error e => .error e
          | .ok uniqueName =>
            let moved : Except HttpErr (Fs × String) :=
              if uniqueName ≠ sourceName then
                let parentPath := parentOr srcPath
                let tempPath := childPath parentPath uniqueName
                match (c.rename fs srcPath tempPath).1 with
                | .error e => .error e
                | .ok fsT => (c.move fsT tempPath destParentPath).1
              else (c.move fs srcPath destParentPath).1
            match moved with
            | .error e => .error e
            | .ok (fs₁, newVfs) =>
              let db₁ := db.updateMetaPath srcPath newVfs
              match (c.statPath fs₁ newVfs).1 with
              | .error e => .error e
              | .ok none => .error ⟨500, "Moved but stat failed"⟩
              | .ok (some _) => .ok ⟨srcPath, newVfs, fs₁, db₁⟩

/-- `copy_node`: copy, then rename the fresh copy when the unique name
differs from the source basename; metadata is not copied. -/
def copyNode (c : CFS) (fs : Fs) (db : Db) (srcPath destParentPath : String) :
    Except HttpErr MoveResult :=
  match (c.existsOp fs srcPath).1 with
  | .error e => .error e
  | .ok false => .error ⟨404, "Source not found: " ++ srcPath⟩
  | .ok true =>
    match (c.statPath fs destParentPath).1 with
    | .error e => .error e
    | .ok none => .error ⟨404, "Destination not found: " ++ destParentPath⟩
    | .ok (some destInfo) =>
      if destInfo.kind ≠ NodeKind.dir then .error ⟨400, "Destination is not a directory"⟩
      else
        let sourceName := basenameStr srcPath
        match (c.generateUniqueName fs destParentPath sourceName).1 with
        | .error e => .error e
        | .ok uniqueName =>
          match (c.copy fs srcPath destParentPath).1 with
          | .error e => .error e
          | .ok (fs₁, copiedVfs) =>
            let afterRename : Except HttpErr (Fs × String) :=
              if uniqueName ≠ sourceName then
                let destVfs := childPath destParentPath sourceName
                let finalVfs := childPath destParentPath uniqueName
                match (c.rename fs₁ destVfs finalVfs).1 with
                | .error e => .error e
                | .ok fs₂ => .ok (fs₂, finalVfs)
              else .ok (fs₁, copiedVfs)
            match afterRename with
            | .error e => .error e
            | .ok (fs₂, newVfs) =>
              match (c.statPath fs₂ newVfs).1 with
              | .error e => .error e
              | .ok none => .error ⟨500, "Copied but stat failed"⟩
              | .ok (some _) => .ok ⟨srcPath, newVfs, fs₂, db⟩

/-- `delete_node`: permanent delete removes content and the exact-path
metadata row; soft delete moves to trash, records `original_path` at the
trashed path and drops the exact-path row. -/
def deleteNode (c : CFS) (fs : Fs) (db : Db) (p : String) (permanent : Bool) :
    Except HttpErr DeleteResult :=
  if p = "/" then .error ⟨400, "Cannot delete root"⟩
  else
    match (c.statPath fs p).1 with
    | .error e => .error e
    | .ok none => .error ⟨404, "Node not found: " ++ p⟩
    | .ok (some _) =>
      if permanent then
        match (c.delete fs p).1 with
        | .error e => .error e
        | .ok fs₁ => .ok ⟨p, false, none, fs₁, db.deleteMeta p⟩
      else
        match (c.moveToTrash fs p).1 with
        | .error e => .error e
        | .ok (fs₁, trashVfs) =>
          let db₁ := db.upsertMeta trashVfs none none true (some p)
          let db₂ := db₁.deleteMeta p
          .ok ⟨trashVfs, true, some p, fs₁, db₂⟩

/-- `restore_node`: read `original_path` from the trashed row, recreate a
missing parent, derive the unique name, move the content back, delete the
trashed row. -/
def restoreNode (c : CFS) (fs : Fs) (db : Db) (trashPath : String) :
    Except HttpErr MoveResult :=
  match db.rows.find? (fun r => r.path == trashPath && r.isTrashed) with
  | none => .error ⟨400, "Original path unknown, cannot restore"⟩
  | some meta =>
    match meta.originalPath with
    | none => .error ⟨400, "Original path unknown, cannot restore"⟩
    | some originalPath =>
      if originalPath = "" then .error ⟨400, "Original path unknown, cannot restore"⟩
      else
        let parentPath := parentOr originalPath
        let ensured : Except HttpErr Fs :=
          match (c.existsOp fs parentPath).1 with
          | .error e => .error e
          | .ok true => .ok fs
          | .ok false => (c.createDirectory fs parentPath).1
        match ensured with
        | .error e => .error e
        | .ok fs₁ =>
          let nodeName := basenameStr originalPath
          match (c.generateUniqueName fs₁ parentPath nodeName).1 with
          | .error e => .error e
          | .ok uniqueName =>
            let newPath := childPath parentPath uniqueName
            match c.vfsToContainer trashPath, c.vfsToContainer newPath with
            | .ok srcC, .ok destC =>
              (match mvCmd fs₁ srcC destC with
               | none => .error ⟨500, "Failed to restore: " ++ trashPath⟩
               | some fs₂ =>
                 let db₁ := db.deleteMeta trashPath
                 match (c.statPath fs₂ newPath).1 with
                 | .error e => .error e
                 | .ok none => .error ⟨500, "Restored but stat failed"⟩
                 | .ok (some _) => .ok ⟨trashPath, newPath, fs₂, db₁⟩)
            | .error e, _ => .error e
            | _, .error e => .error e

/-! ### TerminalSession

A session owns a detached in-container `screen` session and an attached
duplex exec socket.  Operations are modelled with an explicit action
trace; an exec instance only runs if it is both created and started, and
"issuing a kill" means creating the `screen … -X quit` exec. -/

inductive TermAct where
  | execCreate (argv : List String)
  | execStart
  | sockClose
deriving DecidableEq, Repr

structure TermSession where
  containerName : String
  sessionId : String
  closed : Bool
  sockOpen : Bool
deriving DecidableEq, Repr

/-- `f"term_{self.session_id[:8]}"`. -/
def screenSessionName (s : TermSession) : String :=
  "term_" ++ (⟨s.sessionId.data.take 8⟩ : String)

/-- The argv of the in-container kill of a named multiplexer session. -/
def quitArgv (name : String) : List String :=
  ["screen", "-S", name, "-X", "quit"]

/-- Whether an action trace issues a kill of the named screen session. -/
def issuesKill (acts : List TermAct) (name : String) : Bool :=
  acts.any (fun a =>
    match a with
    | .execCreate argv => argv == quitArgv name
    | _ => false)

/-- `TerminalSession.close`: no-op when already closed, else mark closed
and close the attached socket.  No exec of any kind is created. -/
def TermSession.close (s : TermSession) : TermSession × List TermAct :=
  if s.closed then (s, [])
  else
    ({ s with closed := true, sockOpen := false },
     if s.sockOpen then [TermAct.sockClose] else [])

/-- `TerminalSession.kill_screen_session`: creates the quit exec for the
session's screen name (the source never calls `exec_start` on it). -/
def TermSession.killScreenSession (s : TermSession) : TermSession × List TermAct :=
  (s, [TermAct.execCreate (quitArgv (screenSessionName s))])

/-! ### ContainerService user directory layout -/

/-- The subdirectory names `_create_user_dirs` creates under
`<dataBase>/<userId>`. -/
def userSubdirs : List String :=
  ["documents", "projects", "downloads", "pictures", ".aisu", ".trash"]

/-- Directories created by `_create_user_dirs` (host paths; `os.path.join`
with an absolute base concatenates with `/`). -/
def createUserDirs (dataBase userId : String) : List String :=
  userSubdirs.map (fun d => dataBase ++ "/" ++ userId ++ "/" ++ d)

/-- Modelled from the spec: the standard subdirectories §4.4 requires
`provision` to create — `Desktop, Documents, Downloads, Pictures, Music,
Videos, .Trash`. -/
def specStandardSubdirs : List String :=
  ["Desktop", "Documents", "Downloads", "Pictures", "Music", "Videos", ".Trash"]

/-! ### Lemmas: splitting, joining, basenames -/

/-- A string without path separators (one path segment). -/
def noSlash (s : String) : Prop := Char.ofNat 47 ∉ s.data

theorem mem_splitChar_no_sep (sep : Char) (l : List Char) :
    ∀ seg ∈ splitChar sep l, sep ∉ seg := by
  induction l with
  | nil =>
    intro seg hseg
    simp [splitChar] at hseg
    simp [hseg]
  | cons c cs ih =>
    intro seg hseg
    cases h : splitChar sep cs with
    | nil => exact absurd h (splitChar_ne_nil sep cs)
    | cons g gs =>
      have hred : splitChar sep (c :: cs) = if c = sep then [] :: g :: gs else (c :: g) :: gs := by
        simp only [splitChar]
        rw [h]
      rw [hred] at hseg
      by_cases hc : c = sep
      · rw [if_pos hc] at hseg
        rcases List.mem_cons.mp hseg with h1 | h2
        · simp [h1]
        · exact ih seg (h ▸ h2)
      · rw [if_neg hc] at hseg
        rcases List.mem_cons.mp hseg with h1 | h2
        · subst h1
          intro hm
          rcases List.mem_cons.mp hm with h3 | h4
          · exact hc h3.symm
          · exact ih g (h ▸ List.mem_cons_self g gs) h4
        · exact ih seg (h ▸ List.mem_cons.mpr (Or.inr h2))

theorem one_le_splitChar_length (sep : Char) (l : List Char) :
    1 ≤ (splitChar sep l).length :=
  List.length_pos.mpr (splitChar_ne_nil sep l)

theorem two_le_splitChar_length (sep : Char) (l : List Char) (h : sep ∈ l) :
    2 ≤ (splitChar sep l).length := by
  induction l with
  | nil => cases h
  | cons c cs ih =>
    cases hs : splitChar sep cs with
    | nil => exact absurd hs (splitChar_ne_nil sep cs)
    | cons g gs =>
      have hred : splitChar sep (c :: cs) = if c = sep then [] :: g :: gs else (c :: g) :: gs := by
        simp only [splitChar]
        rw [hs]
      rw [hred]
      by_cases hc : c = sep
      · rw [if_pos hc]
        simp only [List.length_cons]
        omega
      · rw [if_neg hc]
        simp only [List.length_cons]
        rcases List.mem_cons.mp h with h1 | h2
        · exact absurd h1.symm hc
        · have := ih h2
          rw [hs] at this
          simp only [List.length_cons] at this
          omega

theorem no_sep_of_splitChar_length_le_one (sep : Char) (l : List Char)
    (h : (splitChar sep l).length ≤ 1) : sep ∉ l := by
  intro hmem
  have := two_le_splitChar_length sep l hmem
  omega

theorem joinChar_concat (sep : Char) (ps : List (List Char)) (x : List Char) (h : ps ≠ []) :
    joinChar sep (ps ++ [x]) = joinChar sep ps ++ sep :: x := by
  induction ps with
  | nil => exact absurd rfl h
  | cons g rest ih =>
    cases rest with
    | nil => simp [joinChar]
    | cons p rs =>
      have := ih (by simp)
      simp only [List.cons_append, List.append_eq, joinChar] at this ⊢
      rw [this]
      simp

/-- Splitting `a ++ "/" ++ n` for slash-free `n` gives the parts of `a`
followed by `n`. -/
theorem splitChar_slash_append (a n : String) (hn : noSlash n) :
    splitChar (Char.ofNat 47) (a ++ "/" ++ n).data =
      splitChar (Char.ofNat 47) a.data ++ [n.data] := by
  have hdata : (a ++ "/" ++ n).data = a.data ++ Char.ofNat 47 :: n.data := by
    simp [String.data_append]
  rw [hdata, splitChar_append, splitChar_no_sep _ _ hn]

theorem rsplit1_append (a n : String) (hn : noSlash n) :
    rsplit1 (a ++ "/" ++ n) = (a, n) := by
  unfold rsplit1
  rw [splitChar_slash_append a n hn]
  have hlen : 2 ≤ (splitChar (Char.ofNat 47) a.data ++ [n.data]).length := by
    have := one_le_splitChar_length (Char.ofNat 47) a.data
    simp only [List.length_append, List.length_cons, List.length_nil]
    omega
  rw [if_neg (by omega)]
  simp only [Prod.mk.injEq]
  refine ⟨?_, ?_⟩
  · apply String.ext
    simp only [List.dropLast_concat]
    exact joinChar_splitChar (Char.ofNat 47) a.data
  · apply String.ext
    simp [List.getLastD_concat]

theorem basenameStr_append (a n : String) (hn : noSlash n) :
    basenameStr (a ++ "/" ++ n) = n := by
  simp [basenameStr, rsplit1_append a n hn]

theorem childPath_eq_append (parent n : String) :
    childPath parent n = (if parent = "/" then "" else parent) ++ "/" ++ n := by
  unfold childPath
  by_cases h : parent = "/"
  · simp only [h, if_pos rfl]
    apply String.ext
    simp [String.data_append]
  · simp [h]

theorem basenameStr_childPath (parent n : String) (hn : noSlash n) :
    basenameStr (childPath parent n) = n := by
  rw [childPath_eq_append]
  exact basenameStr_append _ n hn

theorem parentOr_childPath (parent n : String) (hn : noSlash n) (hp : parent ≠ "") :
    parentOr (childPath parent n) = parent := by
  rw [childPath_eq_append]
  unfold parentOr
  rw [show ((rsplit1 ((if parent = "/" then "" else parent) ++ "/" ++ n)).1
      = if parent = "/" then "" else parent) from by rw [rsplit1_append _ n hn]]
  by_cases h : parent = "/"
  · simp [h]
  · simp [h, hp]

theorem basenameStr_mem_split (s : String) :
    (basenameStr s).data ∈ splitChar (Char.ofNat 47) s.data := by
  unfold basenameStr rsplit1
  by_cases h : (splitChar (Char.ofNat 47) s.data).length ≤ 1
  · simp only [h, if_pos rfl]
    have h1 := one_le_splitChar_length (Char.ofNat 47) s.data
    have : (splitChar (Char.ofNat 47) s.data).length = 1 := by omega
    rcases List.length_eq_one.mp this with ⟨x, hx⟩
    have hjoin := joinChar_splitChar (Char.ofNat 47) s.data
    rw [hx] at hjoin ⊢
    simp only [joinChar] at hjoin
    simp [hjoin]
  · simp only [h, if_neg (by simp [h] : ¬(splitChar (Char.ofNat 47) s.data).length ≤ 1)]
    rw [List.getLastD_eq_getLast? ]
    have hne := splitChar_ne_nil (Char.ofNat 47) s.data
    rw [List.getLast?_eq_getLast _ hne]
    simp only [Option.getD_some]
    exact List.getLast_mem hne

theorem basenameStr_noSlash (s : String) : noSlash (basenameStr s) :=
  mem_splitChar_no_sep (Char.ofNat 47) s.data (basenameStr s).data (basenameStr_mem_split s)

/-- `hasDotDotSeg` is membership of `..` among the split segments. -/
theorem hasDotDotSeg_iff (s : String) :
    hasDotDotSeg s = true ↔
      [Char.ofNat 46, Char.ofNat 46] ∈ splitChar (Char.ofNat 47) s.data := by
  unfold hasDotDotSeg
  rw [List.any_eq_true]
  constructor
  · rintro ⟨seg, hseg, hbeq⟩
    rw [beq_iff_eq] at hbeq
    exact hbeq ▸ hseg
  · intro hmem
    exact ⟨_, hmem, beq_iff_eq.mpr rfl⟩

theorem basenameStr_ne_dotdot (s : String) (h : hasDotDotSeg s = false) :
    basenameStr s ≠ ".." := by
  intro heq
  have hmem := basenameStr_mem_split s
  rw [heq] at hmem
  have : hasDotDotSeg s = true := (hasDotDotSeg_iff s).mpr hmem
  rw [h] at this
  cases this

/-- Reconstruction: a path that contains a slash is its parent part, a
slash, and its basename. -/
theorem eq_parent_slash_basename (p : String) (h : Char.ofNat 47 ∈ p.data) :
    p = (rsplit1 p).1 ++ "/" ++ (rsplit1 p).2 := by
  unfold rsplit1
  have h2 := two_le_splitChar_length (Char.ofNat 47) p.data h
  rw [if_neg (by omega)]
  apply String.ext
  have hdata : ((⟨joinChar (Char.ofNat 47) (splitChar (Char.ofNat 47) p.data).dropLast⟩ : String)
      ++ "/" ++ (⟨(splitChar (Char.ofNat 47) p.data).getLastD []⟩ : String)).data
      = joinChar (Char.ofNat 47) (splitChar (Char.ofNat 47) p.data).dropLast
        ++ Char.ofNat 47 :: (splitChar (Char.ofNat 47) p.data).getLastD [] := by
    simp [String.data_append]
  rw [hdata]
  have hne := splitChar_ne_nil (Char.ofNat 47) p.data
  have hsplit : (splitChar (Char.ofNat 47) p.data).dropLast
      ++ [(splitChar (Char.ofNat 47) p.data).getLastD []] = splitChar (Char.ofNat 47) p.data := by
    rw [List.getLastD_eq_getLast? , List.getLast?_eq_getLast _ hne]
    simp only [Option.getD_some]
    exact List.dropLast_append_getLast hne
  have hdl : (splitChar (Char.ofNat 47) p.data).dropLast ≠ [] := by
    intro hnil
    have := congrArg List.length hsplit
    simp [hnil] at this
    omega
  calc p.data = joinChar (Char.ofNat 47) (splitChar (Char.ofNat 47) p.data) :=
        (joinChar_splitChar _ _).symm
    _ = joinChar (Char.ofNat 47) ((splitChar (Char.ofNat 47) p.data).dropLast
        ++ [(splitChar (Char.ofNat 47) p.data).getLastD []]) := by rw [hsplit]
    _ = _ := joinChar_concat _ _ _ hdl

/-- A strict child of `cD` (its `rsplit1` parent is `cD`, and it is not
`cD` itself) decomposes as `cD ++ "/" ++ basename`. -/
theorem child_decomp (p cD : String) (h1 : (rsplit1 p).1 = cD) (h2 : p ≠ cD) :
    p = cD ++ "/" ++ basenameStr p := by
  by_cases hs : Char.ofNat 47 ∈ p.data
  · have := eq_parent_slash_basename p hs
    rw [h1] at this
    exact this
  · exfalso
    apply h2
    unfold rsplit1 at h1
    have hle : (splitChar (Char.ofNat 47) p.data).length ≤ 1 := by
      by_contra hgt
      push_neg at hgt
      have hsep : Char.ofNat 47 ∈ p.data := by
        by_contra hno
        rw [splitChar_no_sep _ _ hno] at hgt
        simp at hgt
      exact hs hsep
    rw [if_pos hle] at h1
    exact h1 ▸ rfl

/-! ### Lemmas: validation and translation -/

theorem validatePath_ok_iff (p : String) :
    validatePath p = .ok () ↔ hasDotDotSeg p = false := by
  unfold validatePath
  by_cases h : hasDotDotSeg p <;> simp [h]

theorem validatePath_of_bad (p : String) (h : hasDotDotSeg p = true) :
    validatePath p = .error ⟨400, validationDetail⟩ := by
  simp [validatePath, h]

theorem hasDotDotSeg_empty : hasDotDotSeg "" = false := by decide

theorem hasDotDotSeg_append_iff (a n : String) (hn : noSlash n) :
    hasDotDotSeg (a ++ "/" ++ n) = true ↔ (hasDotDotSeg a = true ∨ n = "..") := by
  rw [hasDotDotSeg_iff, splitChar_slash_append a n hn, List.mem_append, ← hasDotDotSeg_iff]
  constructor
  · rintro (h | h)
    · exact Or.inl h
    · right
      apply String.ext
      have h1 : n.data = [Char.ofNat 46, Char.ofNat 46] := (List.mem_singleton.mp h).symm
      rw [h1]
  · rintro (h | h)
    · exact Or.inl h
    · right
      rw [h]
      simp [show (".." : String).data = [Char.ofNat 46, Char.ofNat 46] from rfl]

theorem hasDotDotSeg_childPath (parent n : String) (hp : hasDotDotSeg parent = false)
    (hn : noSlash n) (hne : n ≠ "..") : hasDotDotSeg (childPath parent n) = false := by
  rw [childPath_eq_append]
  by_cases h : parent = "/"
  · simp only [h, if_pos rfl]
    rw [Bool.eq_false_iff]
    intro hbad
    rcases (hasDotDotSeg_append_iff "" n hn).mp hbad with h1 | h2
    · rw [hasDotDotSeg_empty] at h1
      cases h1
    · exact hne h2
  · simp only [if_neg h]
    rw [Bool.eq_false_iff]
    intro hbad
    rcases (hasDotDotSeg_append_iff parent n hn).mp hbad with h1 | h2
    · rw [hp] at h1
      cases h1
    · exact hne h2

theorem vfsToContainer_ok (c : CFS) (p : String) (h : hasDotDotSeg p = false) :
    c.vfsToContainer p = .ok (if p = "/" then c.basePath else c.basePath ++ p) := by
  unfold CFS.vfsToContainer
  rw [show validatePath p = .ok () from (validatePath_ok_iff p).mpr h]
  by_cases hp : p = "/" <;> simp [hp]

theorem vfsToContainer_bad (c : CFS) (p : String) (h : hasDotDotSeg p = true) :
    c.vfsToContainer p = .error ⟨400, validationDetail⟩ := by
  unfold CFS.vfsToContainer
  rw [validatePath_of_bad p h]

/-! ### Lemmas: string append arithmetic -/

theorem strAppend_left_inj (a b d : String) : a ++ b = a ++ d ↔ b = d := by
  constructor
  · intro h
    apply String.ext
    have := congrArg String.data h
    simp only [String.data_append] at this
    exact List.append_cancel_left this
  · intro h
    rw [h]

theorem strAppend_empty (a : String) : a ++ "" = a := by
  apply String.ext
  simp [String.data_append]

theorem strDrop_append (a b : String) : strDrop (a ++ b) (strLen a) = b := by
  apply String.ext
  simp [strDrop, strLen, String.data_append]

theorem strStartsWith_append_slash (base t : String) :
    strStartsWith (base ++ ("/" ++ t)) (base ++ "/") = true := by
  unfold strStartsWith
  rw [List.isPrefixOf_iff_prefix]
  simp only [String.data_append]
  rw [List.prefix_append_right_inj]
  simp [show ("/" : String).data = [Char.ofNat 47] from rfl]

theorem strLen_append (a b : String) : strLen (a ++ b) = strLen a + strLen b := by
  simp [strLen, String.data_append]

theorem append_ne_self_of_ne_empty (a b : String) (h : b ≠ "") : a ++ b ≠ a := by
  intro heq
  apply h
  have := congrArg strLen heq
  rw [strLen_append] at this
  have hb : strLen b = 0 := by omega
  unfold strLen at hb
  apply String.ext
  simpa using List.length_eq_zero.mp hb

/-- A string beginning with `/` is `/` followed by its tail. -/
theorem startsSlash_decomp (p : String) (h : strStartsWith p "/" = true) :
    ∃ t : String, p = "/" ++ t := by
  unfold strStartsWith at h
  rw [List.isPrefixOf_iff_prefix] at h
  rcases h with ⟨t, ht⟩
  refine ⟨⟨t⟩, ?_⟩
  apply String.ext
  rw [String.data_append, ← ht]

/-! ### Lemmas: digits and unique-name candidates -/

theorem toDigitsCore_chars (b f : Nat) (hb : 0 < b) :
    ∀ (n : Nat) (l : List Char), ∀ ch ∈ Nat.toDigitsCore b f n l,
      (∃ d, d < b ∧ ch = Nat.digitChar d) ∨ ch ∈ l := by
  induction f with
  | zero => intro n l ch hch; exact Or.inr hch
  | succ f ih =>
    intro n l ch hch
    simp only [Nat.toDigitsCore] at hch
    by_cases h : n / b = 0
    · rw [if_pos h] at hch
      rcases List.mem_cons.mp hch with h1 | h2
      · exact Or.inl ⟨n % b, Nat.mod_lt n hb, h1⟩
      · exact Or.inr h2
    · rw [if_neg h] at hch
      rcases ih (n / b) (Nat.digitChar (n % b) :: l) ch hch with h1 | h2
      · exact Or.inl h1
      · rcases List.mem_cons.mp h2 with h3 | h4
        · exact Or.inl ⟨n % b, Nat.mod_lt n hb, h3⟩
        · exact Or.inr h4

theorem digitChar_ne_slash (d : Nat) (h : d < 10) : Nat.digitChar d ≠ Char.ofNat 47 := by
  interval_cases d <;> decide

theorem noSlash_repr (n : Nat) : noSlash (Nat.repr n) := by
  intro hmem
  have hch : Char.ofNat 47 ∈ Nat.toDigits 10 n := by
    simpa [Nat.repr, List.asString] using hmem
  unfold Nat.toDigits at hch
  rcases toDigitsCore_chars 10 (n + 1) (by norm_num) n [] _ hch with ⟨d, hd, heq⟩ | h2
  · exact digitChar_ne_slash d hd heq.symm
  · cases h2

theorem noSlash_append (a b : String) (ha : noSlash a) (hb : noSlash b) :
    noSlash (a ++ b) := by
  intro hmem
  rw [String.data_append, List.mem_append] at hmem
  rcases hmem with h | h
  · exact ha h
  · exact hb h

theorem noSlash_space : noSlash " " := by
  unfold noSlash
  decide

/-- The unique-name candidate `base ++ " " ++ Nat.repr n`. -/
def candName (base : String) (n : Nat) : String := base ++ " " ++ Nat.repr n

theorem candName_injective (base : String) : Function.Injective (candName base) := by
  intro m n h
  apply natRepr_injective
  unfold candName at h
  rw [String.ext_iff] at h
  simp only [String.data_append] at h
  have := List.append_cancel_left h
  exact String.ext this

theorem noSlash_candName (base : String) (hb : noSlash base) (n : Nat) :
    noSlash (candName base n) :=
  noSlash_append _ _ (noSlash_append _ _ hb noSlash_space) (noSlash_repr n)

theorem candName_ne_empty (base : String) (n : Nat) : candName base n ≠ "" := by
  intro h
  have := congrArg strLen h
  rw [candName] at this
  rw [strLen_append, strLen_append] at this
  simp [strLen] at this

/-! ### Lemmas: the first-free-counter search -/

def findFreeN (occ : Nat → Bool) : Nat → Nat → Nat
  | 0, start => start
  | fuel + 1, start => if occ start then findFreeN occ fuel (start + 1) else start

theorem findFreeN_ge (occ : Nat → Bool) (fuel start : Nat) :
    start ≤ findFreeN occ fuel start := by
  induction fuel generalizing start with
  | zero => simp [findFreeN]
  | succ fuel ih =>
    simp only [findFreeN]
    by_cases h : occ start
    · rw [if_pos h]
      have := ih (start + 1)
      omega
    · rw [if_neg h]

theorem findFreeN_min (occ : Nat → Bool) (fuel start : Nat) :
    ∀ j, start ≤ j → j < findFreeN occ fuel start → occ j = true := by
  induction fuel generalizing start with
  | zero =>
    intro j h1 h2
    simp [findFreeN] at h2
    omega
  | succ fuel ih =>
    intro j h1 h2
    simp only [findFreeN] at h2
    by_cases h : occ start
    · rw [if_pos h] at h2
      by_cases hj : j = start
      · rw [hj]; exact h
      · exact ih (start + 1) j (by omega) h2
    · rw [if_neg h] at h2
      omega

theorem findFreeN_free (occ : Nat → Bool) (fuel start : Nat)
    (h : ∃ k, k < fuel ∧ occ (start + k) = false) :
    occ (findFreeN occ fuel start) = false := by
  induction fuel generalizing start with
  | zero =>
    rcases h with ⟨k, hk, _⟩
    omega
  | succ fuel ih =>
    simp only [findFreeN]
    by_cases hocc : occ start
    · rw [if_pos hocc]
      apply ih
      rcases h with ⟨k, hk, hfree⟩
      cases k with
      | zero => rw [Nat.add_zero] at hfree; rw [hocc] at hfree; cases hfree
      | succ k => exact ⟨k, by omega, by rw [show start + 1 + k = start + (k + 1) by omega]; exact hfree⟩
    · rw [if_neg hocc]
      simpa using hocc

/-- Pigeonhole: at most `L` of the pairwise-distinct candidates indexed
`2, …, 2 + L` can be occupied paths of a filesystem with `L` entries. -/
theorem exists_free_candidate (fs : Fs) (pathOf : Nat → String)
    (hinj : Function.Injective pathOf) :
    ∃ k, k < fs.entries.length + 1 ∧ fs.existsPath (pathOf (2 + k)) = false := by
  by_contra hall
  push_neg at hall
  have hocc : ∀ k < fs.entries.length + 1, fs.existsPath (pathOf (2 + k)) = true := by
    intro k hk
    have := hall k hk
    revert this
    cases fs.existsPath (pathOf (2 + k)) <;> simp
  have hmem : ∀ k < fs.entries.length + 1, pathOf (2 + k) ∈ fs.paths := by
    intro k hk
    have := hocc k hk
    unfold Fs.existsPath at this
    rw [List.any_eq_true] at this
    rcases this with ⟨e, he, hbe⟩
    rw [beq_iff_eq] at hbe
    rw [← hbe]
    exact List.mem_map_of_mem Entry.path he
  have hsub : ((List.range (fs.entries.length + 1)).map (fun k => pathOf (2 + k))).toFinset
      ⊆ fs.paths.toFinset := by
    intro x hx
    rw [List.mem_toFinset, List.mem_map] at hx
    rcases hx with ⟨k, hk, hxe⟩
    rw [List.mem_range] at hk
    rw [List.mem_toFinset, ← hxe]
    exact hmem k hk
  have hnodup : ((List.range (fs.entries.length + 1)).map (fun k => pathOf (2 + k))).Nodup := by
    apply List.Nodup.map
    · intro x y hxy
      have := hinj hxy
      omega
    · exact List.nodup_range _
  have hcard1 : ((List.range (fs.entries.length + 1)).map (fun k => pathOf (2 + k))).toFinset.card
      = fs.entries.length + 1 := by
    rw [List.toFinset_card_of_nodup hnodup]
    simp
  have hcard2 : fs.paths.toFinset.card ≤ fs.entries.length := by
    calc fs.paths.toFinset.card ≤ fs.paths.length := fs.paths.toFinset_card_le
      _ = fs.entries.length := by simp [Fs.paths]
  have := Finset.card_le_card hsub
  omega

/-! ### Lemmas: filesystem state -/

theorem existsPath_iff (fs : Fs) (p : String) :
    fs.existsPath p = true ↔ p ∈ fs.paths := by
  unfold Fs.existsPath Fs.paths
  rw [List.any_eq_true]
  constructor
  · rintro ⟨e, he, hbe⟩
    rw [beq_iff_eq] at hbe
    exact hbe ▸ List.mem_map_of_mem Entry.path he
  · intro h
    rcases List.mem_map.mp h with ⟨e, he, hpe⟩
    exact ⟨e, he, beq_iff_eq.mpr hpe⟩

theorem existsPath_false_iff (fs : Fs) (p : String) :
    fs.existsPath p = false ↔ p ∉ fs.paths := by
  rw [← existsPath_iff]
  cases fs.existsPath p <;> simp

theorem entries_inj_of_nodup (fs : Fs) (h : fs.paths.Nodup) :
    ∀ e₁ ∈ fs.entries, ∀ e₂ ∈ fs.entries, e₁.path = e₂.path → e₁ = e₂ :=
  List.inj_on_of_nodup_map h

theorem Fs.find?_eq (fs : Fs) (h : fs.paths.Nodup) (e : Entry) (he : e ∈ fs.entries) :
    fs.find? e.path = some e := by
  unfold Fs.find?
  cases hfind : fs.entries.find? (fun x => x.path == e.path) with
  | none =>
    exfalso
    have := List.find?_eq_none.mp hfind e he
    simp at this
  | some x =>
    have hxeq := List.find?_some hfind
    simp only [beq_iff_eq] at hxeq
    have hxin := List.mem_of_find?_eq_some hfind
    rw [entries_inj_of_nodup fs h x hxin e he hxeq]

theorem strStartsWith_iff (s pre : String) :
    strStartsWith s pre = true ↔ ∃ t : String, s = pre ++ t := by
  unfold strStartsWith
  rw [List.isPrefixOf_iff_prefix]
  constructor
  · rintro ⟨t, ht⟩
    refine ⟨⟨t⟩, ?_⟩
    apply String.ext
    rw [String.data_append, ← ht]
  · rintro ⟨t, ht⟩
    refine ⟨t.data, ?_⟩
    rw [ht, String.data_append]

theorem strStartsWith_cancel (b x y : String) :
    strStartsWith (b ++ x) (b ++ y) = strStartsWith x y := by
  unfold strStartsWith
  simp only [String.data_append]
  cases hxy : y.data.isPrefixOf x.data with
  | false =>
    rw [Bool.eq_false_iff]
    intro hpre
    rw [List.isPrefixOf_iff_prefix, List.prefix_append_right_inj,
      ← List.isPrefixOf_iff_prefix, hxy] at hpre
    cases hpre
  | true =>
    rw [List.isPrefixOf_iff_prefix, List.prefix_append_right_inj,
      ← List.isPrefixOf_iff_prefix]
    exact hxy

theorem inSubtree_iff (root p : String) :
    inSubtree root p = true ↔ p = root ∨ ∃ t, p = root ++ "/" ++ t := by
  unfold inSubtree
  rw [Bool.or_eq_true, beq_iff_eq]
  constructor
  · rintro (h | h)
    · exact Or.inl h
    · rcases (strStartsWith_iff p (root ++ "/")).mp h with ⟨t, ht⟩
      exact Or.inr ⟨t, ht⟩
  · rintro (h | ⟨t, ht⟩)
    · exact Or.inl h
    · exact Or.inr ((strStartsWith_iff p (root ++ "/")).mpr ⟨t, ht⟩)

theorem subtree_decomp (src p : String) (h : inSubtree src p = true) :
    p = src ++ strDrop p (strLen src) := by
  rcases (inSubtree_iff src p).mp h with h1 | ⟨t, ht⟩
  · subst h1
    rw [show strDrop p (strLen p) = "" from ?_, strAppend_empty]
    apply String.ext
    simp [strDrop, strLen]
  · rw [ht]
    rw [show (src ++ "/" ++ t) = src ++ ("/" ++ t) from by
      apply String.ext; simp [String.data_append]]
    rw [strDrop_append]

theorem relocate_inj_on (src dst p₁ p₂ : String)
    (h1 : inSubtree src p₁ = true) (h2 : inSubtree src p₂ = true)
    (heq : relocate src dst p₁ = relocate src dst p₂) : p₁ = p₂ := by
  unfold relocate at heq
  rw [strAppend_left_inj] at heq
  calc p₁ = src ++ strDrop p₁ (strLen src) := subtree_decomp src p₁ h1
    _ = src ++ strDrop p₂ (strLen src) := by rw [heq]
    _ = p₂ := (subtree_decomp src p₂ h2).symm

theorem relocate_in_subtree (src dst p : String) (h : inSubtree src p = true) :
    inSubtree dst (relocate src dst p) = true := by
  rcases (inSubtree_iff src p).mp h with h1 | ⟨t, ht⟩
  · subst h1
    rw [inSubtree_iff]
    left
    unfold relocate
    rw [show strDrop p (strLen p) = "" from ?_, strAppend_empty]
    apply String.ext
    simp [strDrop, strLen]
  · rw [inSubtree_iff]
    right
    refine ⟨t, ?_⟩
    unfold relocate
    rw [ht]
    rw [show (src ++ "/" ++ t) = src ++ ("/" ++ t) from by
      apply String.ext; simp [String.data_append]]
    rw [strDrop_append]
    apply String.ext
    simp [String.data_append]

theorem map_path_filter (l : List Entry) (q : String → Bool) :
    ((l.filter (fun e => q e.path)).map Entry.path) = (l.map Entry.path).filter q := by
  induction l with
  | nil => rfl
  | cons e es ih =>
    by_cases h : q e.path
    · simp [List.filter, h, ih]
    · simp only [Bool.not_eq_true] at h
      simp [List.filter, h, ih]

theorem removeTree_paths (fs : Fs) (root : String) :
    (fs.removeTree root).paths = fs.paths.filter (fun p => !(inSubtree root p)) := by
  unfold Fs.removeTree Fs.paths
  exact map_path_filter fs.entries (fun p => !(inSubtree root p))

theorem moveTree_paths (fs : Fs) (src dst : String) :
    (fs.moveTree src dst).paths =
      fs.paths.map (fun p => if inSubtree src p then relocate src dst p else p) := by
  unfold Fs.moveTree Fs.paths
  rw [List.map_map, List.map_map]
  apply List.map_congr_left
  intro e _
  by_cases h : inSubtree src e.path <;> simp [h]

theorem mv_paths (fs : Fs) (src dst : String) :
    ((fs.removeTree dst).moveTree src dst).paths =
      (fs.paths.filter (fun p => !(inSubtree dst p))).map
        (fun p => if inSubtree src p then relocate src dst p else p) := by
  rw [moveTree_paths, removeTree_paths]

theorem mv_nodup (fs : Fs) (src dst : String) (h : fs.paths.Nodup) :
    ((fs.removeTree dst).moveTree src dst).paths.Nodup := by
  rw [mv_paths]
  apply List.Nodup.map_on
  · intro x hx y hy hxy
    have hxns : (!(inSubtree dst x)) = true := (List.mem_filter.mp hx).2
    have hyns : (!(inSubtree dst y)) = true := (List.mem_filter.mp hy).2
    rw [Bool.not_eq_true'] at hxns hyns
    by_cases hxs : inSubtree src x <;> by_cases hys : inSubtree src y
    · rw [if_pos hxs, if_pos hys] at hxy
      exact relocate_inj_on src dst x y hxs hys hxy
    · rw [if_pos hxs, if_neg hys] at hxy
      exfalso
      have := relocate_in_subtree src dst x hxs
      rw [hxy, hyns] at this
      cases this
    · rw [if_neg hxs, if_pos hys] at hxy
      exfalso
      have := relocate_in_subtree src dst y hys
      rw [← hxy, hxns] at this
      cases this
    · rw [if_neg hxs, if_neg hys] at hxy
      exact hxy
  · exact h.filter _

theorem cpCmd_paths (fs : Fs) (src dst : String) (fs₁ : Fs)
    (h : cpCmd fs src dst = some fs₁) :
    fs₁.paths = (fs.paths.filter (fun p => !(inSubtree dst p)))
      ++ (fs.paths.filter (fun p => inSubtree src p)).map (relocate src dst) := by
  unfold cpCmd at h
  by_cases he : fs.existsPath src
  · rw [if_pos he] at h
    cases h
    unfold Fs.paths
    rw [List.map_append]
    congr 1
    · exact removeTree_paths fs dst
    · calc ((fs.entries.filter (fun e => inSubtree src e.path)).map
            (fun e => { e with path := relocate src dst e.path })).map Entry.path
          = ((fs.entries.filter (fun e => inSubtree src e.path)).map Entry.path).map
              (relocate src dst) := by
            rw [List.map_map, List.map_map]
            rfl
        _ = _ := by rw [map_path_filter]
  · rw [if_neg he] at h
    cases h

theorem cp_nodup (fs : Fs) (src dst : String) (fs₁ : Fs)
    (h : cpCmd fs src dst = some fs₁) (hnd : fs.paths.Nodup) : fs₁.paths.Nodup := by
  rw [cpCmd_paths fs src dst fs₁ h]
  rw [List.nodup_append]
  refine ⟨hnd.filter _, ?_, ?_⟩
  · apply List.Nodup.map_on
    · intro x hx y hy hxy
      exact relocate_inj_on src dst x y (List.mem_filter.mp hx).2 (List.mem_filter.mp hy).2 hxy
    · exact hnd.filter _
  · intro a ha hb
    have hans : (!(inSubtree dst a)) = true := (List.mem_filter.mp ha).2
    rcases List.mem_map.mp hb with ⟨x, hxm, hxe⟩
    have hxs : inSubtree src x = true := (List.mem_filter.mp hxm).2
    have hrel := relocate_in_subtree src dst x hxs
    rw [hxe] at hrel
    rw [Bool.not_eq_true'] at hans
    rw [hans] at hrel
    cases hrel

theorem addDir_paths_nodup (fs : Fs) (p : String) (h : fs.paths.Nodup) :
    (fs.addDirIfMissing p).paths.Nodup := by
  unfold Fs.addDirIfMissing
  by_cases he : fs.existsPath p
  · rw [if_pos he]
    exact h
  · rw [if_neg he]
    have hp : p ∉ fs.paths := by
      rw [← existsPath_false_iff]
      simpa using he
    unfold Fs.paths at *
    simp [List.nodup_append, h, hp]

theorem foldl_addDir_nodup (l : List String) (fs : Fs) (h : fs.paths.Nodup) :
    (l.foldl Fs.addDirIfMissing fs).paths.Nodup := by
  induction l generalizing fs with
  | nil => exact h
  | cons a as ih =>
    simp only [List.foldl_cons]
    exact ih _ (addDir_paths_nodup fs a h)

theorem foldl_addDir_id (l : List String) (fs : Fs)
    (h : ∀ a ∈ l, fs.existsPath a = true) : l.foldl Fs.addDirIfMissing fs = fs := by
  induction l with
  | nil => rfl
  | cons a as ih =>
    simp only [List.foldl_cons]
    rw [show fs.addDirIfMissing a = fs from by
      unfold Fs.addDirIfMissing
      rw [if_pos (h a (List.mem_cons_self a as))]]
    exact ih (fun b hb => h b (List.mem_cons.mpr (Or.inr hb)))

theorem mkdirP_nodup (fs : Fs) (cp : String) (fs₁ : Fs) (h : mkdirP fs cp = some fs₁)
    (hnd : fs.paths.Nodup) : fs₁.paths.Nodup := by
  unfold mkdirP at h
  by_cases hf : (slashAncestors cp).any (fun a => fs.isFileAt a)
  · rw [if_pos hf] at h
    cases h
  · rw [if_neg hf] at h
    cases h
    exact foldl_addDir_nodup _ fs hnd

theorem mkdirP_id (fs : Fs) (cp : String)
    (hex : ∀ a ∈ slashAncestors cp, fs.existsPath a = true)
    (hnf : ∀ a ∈ slashAncestors cp, fs.isFileAt a = false) :
    mkdirP fs cp = some fs := by
  unfold mkdirP
  rw [if_neg ?_, foldl_addDir_id _ _ hex]
  rw [List.any_eq_true]
  rintro ⟨a, ha, hfa⟩
  rw [hnf a ha] at hfa
  cases hfa

/-! ### Lemmas: clean strings and literal transport -/

theorem cleanStr_append (a b : String) (ha : cleanStr a = true) (hb : cleanStr b = true) :
    cleanStr (a ++ b) = true := by
  unfold cleanStr at *
  rw [String.data_append, List.all_append, ha, hb]
  rfl

theorem pyInterior_of_clean_list (l : List Char)
    (h : ∀ ch ∈ l, (!(ch == Char.ofNat 34) && !(ch == Char.ofNat 92)
      && !(ch == Char.ofNat 10)) = true) : pyInterior l = some l := by
  induction l with
  | nil => rfl
  | cons c cs ih =>
    have hc := h c (List.mem_cons_self c cs)
    simp only [Bool.and_eq_true, Bool.not_eq_true', beq_eq_false_iff_ne, ne_eq] at hc
    unfold pyInterior
    rw [if_neg hc.1.2, if_neg hc.1.1, if_neg hc.2]
    rw [ih (fun ch hch => h ch (List.mem_cons.mpr (Or.inr hch)))]
    rfl

theorem pyInterior_of_clean (s : String) (h : cleanStr s = true) :
    pyInterior s.data = some s.data :=
  pyInterior_of_clean_list s.data (List.all_eq_true.mp h)

/-! ### Lemmas: translated paths and basic operation shapes -/

/-- The container path a valid VFS path translates to. -/
def translatedPath (c : CFS) (p : String) : String :=
  if p = "/" then c.basePath else c.basePath ++ p

theorem vfsToContainer_eq (c : CFS) (p : String) (h : hasDotDotSeg p = false) :
    c.vfsToContainer p = .ok (translatedPath c p) :=
  vfsToContainer_ok c p h

theorem existsOp_eq (c : CFS) (fs : Fs) (p : String) (h : hasDotDotSeg p = false) :
    c.existsOp fs p =
      (.ok (fs.existsPath (translatedPath c p)), [["test", "-e", translatedPath c p]]) := by
  unfold CFS.existsOp
  rw [vfsToContainer_eq c p h]

theorem statPath_fst (c : CFS) (fs : Fs) (p : String) (h : hasDotDotSeg p = false)
    (hcl : cleanStr (translatedPath c p) = true) :
    (c.statPath fs p).1 = .ok ((fs.find? (translatedPath c p)).map entryInfo) := by
  unfold CFS.statPath
  rw [vfsToContainer_eq c p h]
  simp only
  rw [pyInterior_of_clean _ hcl]
  simp only
  cases hfind : fs.find? (translatedPath c p) <;> simp [hfind]

/-! ### Lemmas: joins of splits and ancestors -/

theorem splitChar_join_of_no_sep (sep : Char) (ps : List (List Char))
    (h : ∀ g ∈ ps, sep ∉ g) (hne : ps ≠ []) :
    splitChar sep (joinChar sep ps) = ps := by
  induction ps with
  | nil => exact absurd rfl hne
  | cons g rest ih =>
    cases rest with
    | nil =>
      simp only [joinChar]
      exact splitChar_no_sep sep g (h g (List.mem_cons_self g []))
    | cons p rs =>
      have hjoin : joinChar sep (g :: p :: rs) = g ++ sep :: joinChar sep (p :: rs) := rfl
      rw [hjoin, splitChar_append, splitChar_no_sep sep g (h g (List.mem_cons_self g _)),
        ih (fun x hx => h x (List.mem_cons.mpr (Or.inr hx))) (by simp)]
      rfl

theorem mem_slashAncestors_of_index (cp : String) (k : Nat)
    (hk : k < (splitChar (Char.ofNat 47) cp.data).length - 1) :
    (⟨joinChar (Char.ofNat 47) ((splitChar (Char.ofNat 47) cp.data).take (k + 2))⟩ : String)
      ∈ slashAncestors cp := by
  unfold slashAncestors
  apply List.mem_map_of_mem
  exact List.mem_range.mpr hk

theorem self_mem_slashAncestors (cp : String) (h : Char.ofNat 47 ∈ cp.data) :
    cp ∈ slashAncestors cp := by
  have h2 := two_le_splitChar_length (Char.ofNat 47) cp.data h
  have := mem_slashAncestors_of_index cp ((splitChar (Char.ofNat 47) cp.data).length - 2)
    (by omega)
  rw [show (splitChar (Char.ofNat 47) cp.data).length - 2 + 2
      = (splitChar (Char.ofNat 47) cp.data).length from by omega] at this
  rw [List.take_length] at this
  rw [joinChar_splitChar] at this
  exact this

theorem subtree_ancestor (x q : String) (hx : Char.ofNat 47 ∈ x.data)
    (h : strStartsWith q (x ++ "/") = true) : x ∈ slashAncestors q := by
  rcases (strStartsWith_iff q (x ++ "/")).mp h with ⟨t, ht⟩
  have hq : q.data = x.data ++ Char.ofNat 47 :: t.data := by
    rw [ht]
    simp [String.data_append]
  have hsplit : splitChar (Char.ofNat 47) q.data
      = splitChar (Char.ofNat 47) x.data ++ splitChar (Char.ofNat 47) t.data := by
    rw [hq, splitChar_append]
  have hpx := two_le_splitChar_length (Char.ofNat 47) x.data hx
  have hpt := one_le_splitChar_length (Char.ofNat 47) t.data
  have hk : (splitChar (Char.ofNat 47) x.data).length - 2
      < (splitChar (Char.ofNat 47) q.data).length - 1 := by
    rw [hsplit, List.length_append]
    omega
  have hmem := mem_slashAncestors_of_index q ((splitChar (Char.ofNat 47) x.data).length - 2) hk
  rw [hsplit] at hmem
  rw [show (splitChar (Char.ofNat 47) x.data).length - 2 + 2
      = (splitChar (Char.ofNat 47) x.data).length from by omega] at hmem
  rw [List.take_left] at hmem
  rw [joinChar_splitChar] at hmem
  exact hmem

theorem slashAncestors_append_seg (x n : String) (hx : Char.ofNat 47 ∈ x.data)
    (hn : noSlash n) :
    slashAncestors (x ++ "/" ++ n) = slashAncestors x ++ [x ++ "/" ++ n] := by
  simp only [slashAncestors]
  rw [splitChar_slash_append x n hn]
  have hpx := two_le_splitChar_length (Char.ofNat 47) x.data hx
  have hlen : (splitChar (Char.ofNat 47) x.data ++ [n.data]).length - 1
      = ((splitChar (Char.ofNat 47) x.data).length - 1) + 1 := by
    rw [List.length_append]
    simp only [List.length_cons, List.length_nil]
    omega
  rw [hlen, List.range_succ, List.map_append]
  congr 1
  · apply List.map_congr_left
    intro k hk
    rw [List.mem_range] at hk
    congr 1
    rw [List.take_append_of_le_length (by omega)]
  · simp only [List.map_cons, List.map_nil]
    congr 1
    rw [show (splitChar (Char.ofNat 47) x.data).length - 1 + 2
        = (splitChar (Char.ofNat 47) x.data).length + 1 from by omega]
    rw [show (splitChar (Char.ofNat 47) x.data).length + 1
        = (splitChar (Char.ofNat 47) x.data ++ [n.data]).length from by simp]
    rw [List.take_length]
    apply String.ext
    rw [joinChar_concat _ _ _ (splitChar_ne_nil _ _)]
    rw [joinChar_splitChar]
    simp [String.data_append]

/-! ### Lemmas: escape of the trash area -/

theorem trash_escape (P fn : String) (hfn : noSlash fn)
    (hPtr : strStartsWith "/.Trash/" (P ++ "/") = false)
    (h : strStartsWith ("/.Trash/" ++ fn) (P ++ "/") = true) : False := by
  rcases (strStartsWith_iff _ _).mp h with ⟨t, ht⟩
  have hdata : ("/.Trash/" : String).data ++ fn.data = P.data ++ Char.ofNat 47 :: t.data := by
    have := congrArg String.data ht
    simp only [String.data_append] at this
    rw [this]
    simp [String.data_append]
  by_cases hlen : P.data.length + 1 ≤ ("/.Trash/" : String).data.length
  · apply absurd ?_ (Bool.eq_false_iff.mp hPtr)
    unfold strStartsWith
    rw [List.isPrefixOf_iff_prefix]
    have hpre1 : P.data ++ [Char.ofNat 47] <+: ("/.Trash/" : String).data ++ fn.data := by
      rw [hdata]
      exact ⟨t.data, by simp⟩
    have hpre2 : ("/.Trash/" : String).data <+: ("/.Trash/" : String).data ++ fn.data :=
      ⟨fn.data, rfl⟩
    have := List.prefix_of_prefix_length_le hpre1 hpre2
      (by rw [List.length_append]; simpa using hlen)
    simpa [String.data_append] using this
  · push_neg at hlen
    have hpre1 : ("/.Trash/" : String).data <+: P.data ++ Char.ofNat 47 :: t.data := by
      rw [← hdata]
      exact ⟨fn.data, rfl⟩
    have hpre2 : P.data <+: P.data ++ Char.ofNat 47 :: t.data := ⟨_, rfl⟩
    have hp := List.prefix_of_prefix_length_le hpre1 hpre2 (by omega)
    rcases hp with ⟨r, hr⟩
    apply hfn
    rw [← hr, List.append_assoc] at hdata
    have := List.append_cancel_left hdata
    rw [this]
    simp

/-! ### Lemmas: the free-counter scan against its functional form -/

theorem freeScan_fst (probe : Nat → Except HttpErr Bool × List Argv) (occ : Nat → Bool)
    (hp : ∀ k, (probe k).1 = .ok (occ k)) (fuel n : Nat) :
    (freeScan probe fuel n).1 = .ok (findFreeN occ fuel n) := by
  induction fuel generalizing n with
  | zero => rfl
  | succ fuel ih =>
    simp only [freeScan, findFreeN]
    have := hp n
    rcases hpn : probe n with ⟨r, tr⟩
    rw [hpn] at this
    simp only at this
    rw [this]
    by_cases hb : occ n
    · rw [hb]
      simp only [if_true]
      exact ih (n + 1)
    · simp only [Bool.not_eq_true] at hb
      rw [hb]
      simp

/-! ### Lemmas: candidate names -/

theorem candName_ne_dotdot (base : String) (n : Nat) : candName base n ≠ ".." := by
  intro h
  have hsp : Char.ofNat 32 ∈ (candName base n).data := by
    unfold candName
    simp only [String.data_append, List.mem_append]
    left
    right
    decide
  rw [h] at hsp
  revert hsp
  decide

theorem cleanStr_repr (n : Nat) : cleanStr (Nat.repr n) = true := by
  rw [cleanStr, List.all_eq_true]
  intro ch hch
  have hch2 : ch ∈ Nat.toDigits 10 n := by
    simpa [Nat.repr, List.asString] using hch
  unfold Nat.toDigits at hch2
  rcases toDigitsCore_chars 10 (n + 1) (by norm_num) n [] ch hch2 with ⟨d, hd, heq⟩ | h2
  · subst heq
    interval_cases d <;> decide
  · cases h2

theorem cleanStr_candName (base : String) (hb : cleanStr base = true) (n : Nat) :
    cleanStr (candName base n) = true := by
  unfold candName
  exact cleanStr_append _ _ (cleanStr_append _ _ hb (by decide)) (cleanStr_repr n)

theorem childPath_ne_root (parent n : String) (hn : n ≠ "") : childPath parent n ≠ "/" := by
  rw [childPath_eq_append]
  intro h
  have hd := congrArg String.data h
  simp only [String.data_append] at hd
  have hlen : ((if parent = "/" then "" else parent).data ++ ("/" : String).data
      ++ n.data).length = (("/" : String).data).length := by rw [hd]
  rw [List.length_append, List.length_append] at hlen
  have h1 : (("/" : String).data).length = 1 := rfl
  rw [h1] at hlen
  have hn0 : n.data.length = 0 := by omega
  exact hn (String.ext (List.length_eq_zero.mp hn0))

/-- The chosen-name contract of `generate_unique_name`, phrased as claim C2
states it:  the base name when the base path is absent, else the first
free `base N` with `N ≥ 2`. -/
def uniqueNameSpec (c : CFS) (fs : Fs) (parent base chosen : String) : Prop :=
  (fs.existsPath (translatedPath c (childPath parent base)) = false ∧ chosen = base) ∨
  (fs.existsPath (translatedPath c (childPath parent base)) = true ∧
    ∃ n, 2 ≤ n ∧ chosen = candName base n ∧
      fs.existsPath (translatedPath c (childPath parent (candName base n))) = false ∧
      ∀ j, 2 ≤ j → j < n →
        fs.existsPath (translatedPath c (childPath parent (candName base j))) = true)

theorem generateUniqueName_fst (c : CFS) (fs : Fs) (parent base : String)
    (hpar : hasDotDotSeg parent = false) (hbase : noSlash base) (hbne : base ≠ "..") :
    (c.generateUniqueName fs parent base).1 =
      if fs.existsPath (translatedPath c (childPath parent base)) then
        .ok (candName base (findFreeN
          (fun n => fs.existsPath (translatedPath c (childPath parent (candName base n))))
          (fs.entries.length + 1) 2))
      else .ok base := by
  unfold CFS.generateUniqueName
  have hval : validatePath parent = .ok () := (validatePath_ok_iff parent).mpr hpar
  have hex0 := existsOp_eq c fs (childPath parent base)
    (hasDotDotSeg_childPath parent base hpar hbase hbne)
  have hcand : ∀ n : Nat, base ++ " " ++ Nat.repr n = candName base n := fun _ => rfl
  simp only [hval, hex0, hcand]
  by_cases hb : fs.existsPath (translatedPath c (childPath parent base))
  · simp only [hb, if_true]
    rcases hsc : freeScan (fun n => c.existsOp fs (childPath parent (candName base n)))
        (fs.entries.length + 1) 2 with ⟨r, tr⟩
    have hscan := freeScan_fst
      (fun n => c.existsOp fs (childPath parent (candName base n)))
      (fun n => fs.existsPath (translatedPath c (childPath parent (candName base n))))
      (fun k => by
        show (c.existsOp fs (childPath parent (candName base k))).1
          = Except.ok (fs.existsPath (translatedPath c (childPath parent (candName base k))))
        rw [existsOp_eq c fs _ (hasDotDotSeg_childPath parent (candName base k) hpar
          (noSlash_candName base hbase k) (candName_ne_dotdot base k))])
      (fs.entries.length + 1) 2
    rw [hsc] at hscan
    simp only at hscan
    rw [hscan]
  · simp only [Bool.not_eq_true] at hb
    simp [hb]

theorem pathOf_candidate_injective (c : CFS) (parent base : String) :
    Function.Injective (fun k => translatedPath c (childPath parent (candName base k))) := by
  intro k₁ k₂ h
  simp only [translatedPath] at h
  rw [if_neg (childPath_ne_root parent _ (candName_ne_empty base k₁)),
    if_neg (childPath_ne_root parent _ (candName_ne_empty base k₂))] at h
  rw [strAppend_left_inj] at h
  rw [childPath_eq_append, childPath_eq_append] at h
  exact candName_injective base
    ((strAppend_left_inj ((if parent = "/" then "" else parent) ++ "/") _ _).mp h)

theorem generateUniqueName_sound (c : CFS) (fs : Fs) (parent base chosen : String)
    (hpar : hasDotDotSeg parent = false) (hbase : noSlash base) (hbne : base ≠ "..")
    (h : (c.generateUniqueName fs parent base).1 = .ok chosen) :
    uniqueNameSpec c fs parent base chosen := by
  rw [generateUniqueName_fst c fs parent base hpar hbase hbne] at h
  by_cases hb : fs.existsPath (translatedPath c (childPath parent base))
  · rw [if_pos hb] at h
    injection h with h
    right
    refine ⟨hb, findFreeN (fun n => fs.existsPath
      (translatedPath c (childPath parent (candName base n)))) (fs.entries.length + 1) 2,
      findFreeN_ge _ _ _, h.symm, ?_, ?_⟩
    · exact findFreeN_free
        (fun n => fs.existsPath (translatedPath c (childPath parent (candName base n))))
        (fs.entries.length + 1) 2
        (by
          rcases exists_free_candidate fs
              (fun k => translatedPath c (childPath parent (candName base k)))
              (pathOf_candidate_injective c parent base) with ⟨k, hk, hfree⟩
          exact ⟨k, hk, hfree⟩)
    · intro j h2 hj
      exact findFreeN_min
        (fun n => fs.existsPath (translatedPath c (childPath parent (candName base n))))
        (fs.entries.length + 1) 2 j h2 hj
  · rw [if_neg hb] at h
    injection h with h
    left
    simp only [Bool.not_eq_true] at hb
    exact ⟨hb, h.symm⟩

/-! ### Shared concrete fixtures for witnesses and counterexamples -/

/-- A demo service object with the production base path. -/
def cDemo : CFS := ⟨"aisu_u1", "/home/aisu"⟩

/-! ### Claim C10 -/

/-- C10: path translation is a bijection on valid VFS paths — for every
valid path `P` that is `/` or begins with `/`,
`_container_to_vfs (_vfs_to_container P) = P`; in particular `/` maps to
the base path and back. -/
theorem c10_translation_roundtrip (c : CFS) (p : String)
    (hstart : strStartsWith p "/" = true) (hvalid : hasDotDotSeg p = false) :
    c.vfsToContainer "/" = .ok c.basePath ∧
    c.containerToVfs c.basePath = "/" ∧
    c.vfsToContainer p = .ok (translatedPath c p) ∧
    c.containerToVfs (translatedPath c p) = p := by
  refine ⟨?_, ?_, vfsToContainer_eq c p hvalid, ?_⟩
  · rw [vfsToContainer_eq c "/" (by decide)]
    rfl
  · unfold CFS.containerToVfs
    rw [if_pos (Or.inl rfl)]
  · unfold translatedPath
    by_cases hp : p = "/"
    · rw [if_pos hp, hp]
      unfold CFS.containerToVfs
      rw [if_pos (Or.inl rfl)]
    · rw [if_neg hp]
      have hpne : p ≠ "" := by
        intro h
        rw [h] at hstart
        cases hstart
      rcases startsSlash_decomp p hstart with ⟨t, ht⟩
      have hsw : strStartsWith (c.basePath ++ p) (c.basePath ++ "/") = true := by
        rw [ht]
        exact strStartsWith_append_slash c.basePath t
      have hcond : ¬(c.basePath ++ p = c.basePath ∨ c.basePath ++ p = c.basePath ++ "/") := by
        push_neg
        refine ⟨append_ne_self_of_ne_empty c.basePath p hpne, ?_⟩
        intro h
        rw [strAppend_left_inj] at h
        exact hp h
      unfold CFS.containerToVfs
      rw [if_neg hcond, if_pos hsw, strDrop_append]

/-- Witness for C10 at a concrete path. -/
theorem c10_translation_roundtrip_witness :
    strStartsWith "/Documents/a.txt" "/" = true ∧ hasDotDotSeg "/Documents/a.txt" = false ∧
    (cDemo.vfsToContainer "/" = .ok cDemo.basePath ∧
     cDemo.containerToVfs cDemo.basePath = "/" ∧
     cDemo.vfsToContainer "/Documents/a.txt" = .ok (translatedPath cDemo "/Documents/a.txt") ∧
     cDemo.containerToVfs (translatedPath cDemo "/Documents/a.txt") = "/Documents/a.txt") :=
  ⟨by decide, by decide,
    c10_translation_roundtrip cDemo "/Documents/a.txt" (by decide) (by decide)⟩

/-! ### Claim C9 -/

/-- C9: `TerminalSession.close` closes only the attached exec socket — its
action trace contains no exec creation at all, so no kill of the screen
session `term_<first 8 of the session id>` is issued and the in-container
multiplexer session survives; only the separate `kill_screen_session`
operation issues that kill; and `close` is idempotent: a second `close` is
a no-op. -/
theorem c9_terminal_close_preserves_screen (s : TermSession) :
    (∀ a ∈ (s.close).2, a = TermAct.sockClose) ∧
    (∀ name, issuesKill (s.close).2 name = false) ∧
    (s.close).1.closed = true ∧
    ((s.close).1).close = ((s.close).1, []) ∧
    issuesKill (s.killScreenSession).2 (screenSessionName s) = true := by
  have hkill : issuesKill (s.killScreenSession).2 (screenSessionName s) = true := by
    simp [TermSession.killScreenSession, issuesKill]
  rcases s with ⟨cn, sid, closed, sockOpen⟩
  cases closed
  · cases sockOpen
    · exact ⟨fun a ha => absurd ha (List.not_mem_nil a), fun _ => rfl, rfl, rfl, hkill⟩
    · exact ⟨fun a ha => by simpa [TermSession.close] using ha, fun _ => rfl, rfl, rfl, hkill⟩
  · exact ⟨fun a ha => absurd ha (List.not_mem_nil a), fun _ => rfl, rfl, rfl, hkill⟩

/-! ### Claim C6 -/

/-- C6: the host directories `_create_user_dirs` actually creates under
`<dataBase>/<userId>` are the six lowercase names
`documents, projects, downloads, pictures, .aisu, .trash` — not the seven
standard names `Desktop, Documents, Downloads, Pictures, Music, Videos,
.Trash` that the spec (and the repository's own test
`test_creates_all_subdirs`) require. -/
theorem c6_user_dirs_mismatch (dataBase userId : String) :
    createUserDirs dataBase userId
      = ["documents", "projects", "downloads", "pictures", ".aisu", ".trash"].map
          (fun d => dataBase ++ "/" ++ userId ++ "/" ++ d) ∧
    userSubdirs ≠ specStandardSubdirs ∧
    userSubdirs.length = 6 ∧
    specStandardSubdirs.length = 7 ∧
    ∀ d ∈ userSubdirs, d ∉ specStandardSubdirs := by
  refine ⟨rfl, by decide, rfl, rfl, by decide⟩

/-! ### Claim C1 -/

/-- C1: every `ContainerFsService` operation taking a VFS path rejects any
path with a whole `..` segment with HTTP 400 before issuing any
in-container exec (the returned trace is empty), for every path argument
slot; and a path whose segment merely contains `..` as a substring (such
as `/a..b`) passes validation. -/
theorem c1_dotdot_rejected_before_exec (c : CFS) (fs : Fs) (p g q content : String)
    (hp : hasDotDotSeg p = true) (hg : hasDotDotSeg g = false) :
    c.statPath fs p = (.error ⟨400, validationDetail⟩, []) ∧
    c.existsOp fs p = (.error ⟨400, validationDetail⟩, []) ∧
    c.listDirectory fs p = (.error ⟨400, validationDetail⟩, []) ∧
    c.search fs q p = (.error ⟨400, validationDetail⟩, []) ∧
    c.createFile fs p = (.error ⟨400, validationDetail⟩, []) ∧
    c.createDirectory fs p = (.error ⟨400, validationDetail⟩, []) ∧
    c.rename fs p g = (.error ⟨400, validationDetail⟩, []) ∧
    c.rename fs g p = (.error ⟨400, validationDetail⟩, []) ∧
    c.move fs p g = (.error ⟨400, validationDetail⟩, []) ∧
    c.move fs g p = (.error ⟨400, validationDetail⟩, []) ∧
    c.copy fs p g = (.error ⟨400, validationDetail⟩, []) ∧
    c.copy fs g p = (.error ⟨400, validationDetail⟩, []) ∧
    c.delete fs p = (.error ⟨400, validationDetail⟩, []) ∧
    c.moveToTrash fs p = (.error ⟨400, validationDetail⟩, []) ∧
    c.readFile fs p = (.error ⟨400, validationDetail⟩, []) ∧
    c.writeFile fs p content = (.error ⟨400, validationDetail⟩, []) ∧
    c.generateUniqueName fs p q = (.error ⟨400, validationDetail⟩, []) ∧
    validatePath g = .ok () ∧
    validatePath "/a..b" = .ok () := by
  have hbadv : validatePath p = .error ⟨400, validationDetail⟩ := validatePath_of_bad p hp
  have hbadt : c.vfsToContainer p = .error ⟨400, validationDetail⟩ := vfsToContainer_bad c p hp
  have hokv : validatePath g = .ok () := (validatePath_ok_iff g).mpr hg
  have hokt : c.vfsToContainer g = .ok (translatedPath c g) := vfsToContainer_eq c g hg
  refine ⟨?_, ?_, ?_, ?_, ?_, ?_, ?_, ?_, ?_, ?_, ?_, ?_, ?_, ?_, ?_, ?_, ?_, hokv, by rfl⟩
  · simp [CFS.statPath, hbadt]
  · simp [CFS.existsOp, hbadt]
  · simp [CFS.listDirectory, hbadv]
  · simp [CFS.search, hbadv]
  · simp [CFS.createFile, hbadt]
  · simp [CFS.createDirectory, hbadt]
  · simp [CFS.rename, hbadv]
  · simp [CFS.rename, hokv, hbadv]
  · simp [CFS.move, hbadv]
  · simp [CFS.move, hokv, hbadv]
  · simp [CFS.copy, hbadv]
  · simp [CFS.copy, hokv, hbadv]
  · simp [CFS.delete, hbadv]
  · simp [CFS.moveToTrash, hbadv]
  · simp [CFS.readFile, hbadt]
  · simp [CFS.writeFile, hbadt]
  · simp [CFS.generateUniqueName, hbadv]

/-- Witness for C1 at the concrete traversal path `/Documents/../etc` and
good path `/Documents/my..file.txt`. -/
theorem c1_dotdot_rejected_before_exec_witness :
    hasDotDotSeg "/Documents/../etc" = true ∧
    hasDotDotSeg "/Documents/my..file.txt" = false ∧
    (cDemo.statPath ⟨[]⟩ "/Documents/../etc" = (.error ⟨400, validationDetail⟩, []) ∧
     cDemo.existsOp ⟨[]⟩ "/Documents/../etc" = (.error ⟨400, validationDetail⟩, []) ∧
     cDemo.listDirectory ⟨[]⟩ "/Documents/../etc" = (.error ⟨400, validationDetail⟩, []) ∧
     cDemo.search ⟨[]⟩ "q" "/Documents/../etc" = (.error ⟨400, validationDetail⟩, []) ∧
     cDemo.createFile ⟨[]⟩ "/Documents/../etc" = (.error ⟨400, validationDetail⟩, []) ∧
     cDemo.createDirectory ⟨[]⟩ "/Documents/../etc" = (.error ⟨400, validationDetail⟩, []) ∧
     cDemo.rename ⟨[]⟩ "/Documents/../etc" "/Documents/my..file.txt"
       = (.error ⟨400, validationDetail⟩, []) ∧
     cDemo.rename ⟨[]⟩ "/Documents/my..file.txt" "/Documents/../etc"
       = (.error ⟨400, validationDetail⟩, []) ∧
     cDemo.move ⟨[]⟩ "/Documents/../etc" "/Documents/my..file.txt"
       = (.error ⟨400, validationDetail⟩, []) ∧
     cDemo.move ⟨[]⟩ "/Documents/my..file.txt" "/Documents/../etc"
       = (.error ⟨400, validationDetail⟩, []) ∧
     cDemo.copy ⟨[]⟩ "/Documents/../etc" "/Documents/my..file.txt"
       = (.error ⟨400, validationDetail⟩, []) ∧
     cDemo.copy ⟨[]⟩ "/Documents/my..file.txt" "/Documents/../etc"
       = (.error ⟨400, validationDetail⟩, []) ∧
     cDemo.delete ⟨[]⟩ "/Documents/../etc" = (.error ⟨400, validationDetail⟩, []) ∧
     cDemo.moveToTrash ⟨[]⟩ "/Documents/../etc" = (.error ⟨400, validationDetail⟩, []) ∧
     cDemo.readFile ⟨[]⟩ "/Documents/../etc" = (.error ⟨400, validationDetail⟩, []) ∧
     cDemo.writeFile ⟨[]⟩ "/Documents/../etc" "data" = (.error ⟨400, validationDetail⟩, []) ∧
     cDemo.generateUniqueName ⟨[]⟩ "/Documents/../etc" "q"
       = (.error ⟨400, validationDetail⟩, []) ∧
     validatePath "/Documents/my..file.txt" = .ok () ∧
     validatePath "/a..b" = .ok ()) :=
  ⟨by decide, by decide,
    c1_dotdot_rejected_before_exec cDemo ⟨[]⟩ "/Documents/../etc" "/Documents/my..file.txt"
      "q" "data" (by decide) (by decide)⟩

/-! ### Claim C7 -/

/-- C7: the `_LS_SCRIPT` reports a missing directory by printing the
`not_found` discriminant and exiting 1 — but `_exec_python` raises
Internal (500) on any nonzero exit before `list_directory` reaches its
404/403 mapping, so `list(P)` on a missing path surfaces 500, not 404.
This exhibits the code slip behind claim C7. -/
theorem c7_list_not_found_surfaces_500 (c : CFS) (fs : Fs) (p : String)
    (hdd : hasDotDotSeg p = false) (hcl : cleanStr (translatedPath c p) = true)
    (hnd : fs.isDirAt (translatedPath c p) = false) :
    lsRun fs (translatedPath c p) = (.errTag "not_found", 1) ∧
    (c.listDirectory fs p).1 = .error ⟨500, "Filesystem operation failed"⟩ := by
  constructor
  · unfold lsRun
    rw [hnd]
    rfl
  · unfold CFS.listDirectory
    rw [show validatePath p = .ok () from (validatePath_ok_iff p).mpr hdd]
    rw [vfsToContainer_eq c p hdd]
    simp only
    rw [pyInterior_of_clean _ hcl]
    simp only [lsRun, hnd]
    rfl

/-- Witness for C7: listing a missing directory on an empty container
filesystem. -/
theorem c7_list_not_found_surfaces_500_witness :
    hasDotDotSeg "/nonexistent" = false ∧
    cleanStr (translatedPath cDemo "/nonexistent") = true ∧
    (⟨[]⟩ : Fs).isDirAt (translatedPath cDemo "/nonexistent") = false ∧
    (lsRun ⟨[]⟩ (translatedPath cDemo "/nonexistent") = (.errTag "not_found", 1) ∧
     (cDemo.listDirectory ⟨[]⟩ "/nonexistent").1
       = .error ⟨500, "Filesystem operation failed"⟩) :=
  ⟨by decide, by decide, by decide,
    c7_list_not_found_surfaces_500 cDemo ⟨[]⟩ "/nonexistent" (by decide) (by decide) (by decide)⟩

/-! ### Claim C8 -/

/-- Literal-safety of one character: it cannot end or break a
double-quoted Python literal. -/
def litSafe (ch : Char) : Bool :=
  !(ch == Char.ofNat 34) && !(ch == Char.ofNat 92) && !(ch == Char.ofNat 10)

theorem replaceChar_cons_eq (old : Char) (new : List Char) (c : Char) (cs : List Char)
    (h : c = old) : replaceChar old new (c :: cs) = new ++ replaceChar old new cs := by
  subst h
  simp [replaceChar]

theorem replaceChar_cons_ne (old : Char) (new : List Char) (c : Char) (cs : List Char)
    (h : c ≠ old) : replaceChar old new (c :: cs) = c :: replaceChar old new cs := by
  simp [replaceChar, h]

theorem pyInterior_cons_backslash (e : Char) (rest : List Char) :
    pyInterior (Char.ofNat 92 :: e :: rest)
      = (pyInterior rest).map (fun v => pyEscValue e ++ v) := rfl

theorem pyInterior_cons_plain (c : Char) (cs : List Char) (h92 : c ≠ Char.ofNat 92)
    (h34 : c ≠ Char.ofNat 34) (h10 : c ≠ Char.ofNat 10) :
    pyInterior (c :: cs) = (pyInterior cs).map (fun v => c :: v) := by
  cases cs with
  | nil =>
    unfold pyInterior
    rw [if_neg h92, if_neg h34, if_neg h10]
    rfl
  | cons a as =>
    unfold pyInterior
    rw [if_neg h92, if_neg h34, if_neg h10]
    rw [pyInterior.eq_def]

theorem pyInterior_safeQuery_list (l : List Char)
    (h : ∀ ch ∈ l, ch ≠ Char.ofNat 92 ∧ ch ≠ Char.ofNat 10) :
    pyInterior (replaceChar squote [Char.ofNat 92, squote]
      (replaceChar (Char.ofNat 34) [Char.ofNat 92, Char.ofNat 34] l)) = some l := by
  induction l with
  | nil => rfl
  | cons c cs ih =>
    have hc := h c (List.mem_cons_self c cs)
    have hrest := ih (fun ch hch => h ch (List.mem_cons.mpr (Or.inr hch)))
    by_cases h34 : c = Char.ofNat 34
    · subst h34
      rw [replaceChar_cons_eq _ _ _ _ rfl]
      rw [show ([Char.ofNat 92, Char.ofNat 34] : List Char)
          ++ replaceChar (Char.ofNat 34) [Char.ofNat 92, Char.ofNat 34] cs
          = Char.ofNat 92 :: Char.ofNat 34
            :: replaceChar (Char.ofNat 34) [Char.ofNat 92, Char.ofNat 34] cs from rfl]
      rw [replaceChar_cons_ne _ _ _ _ (by decide)]
      rw [replaceChar_cons_ne _ _ _ _ (by decide)]
      rw [pyInterior_cons_backslash, hrest]
      rfl
    · by_cases h39 : c = squote
      · subst h39
        rw [replaceChar_cons_ne _ _ _ _ (by decide)]
        rw [replaceChar_cons_eq _ _ _ _ rfl]
        rw [show ([Char.ofNat 92, squote] : List Char)
            ++ replaceChar squote [Char.ofNat 92, squote]
                (replaceChar (Char.ofNat 34) [Char.ofNat 92, Char.ofNat 34] cs)
            = Char.ofNat 92 :: squote
              :: replaceChar squote [Char.ofNat 92, squote]
                  (replaceChar (Char.ofNat 34) [Char.ofNat 92, Char.ofNat 34] cs) from rfl]
        rw [pyInterior_cons_backslash, hrest]
        rfl
      · rw [replaceChar_cons_ne _ _ _ _ h34]
        rw [replaceChar_cons_ne _ _ _ _ h39]
        rw [pyInterior_cons_plain c _ hc.1 h34 hc.2, hrest]
        rfl

theorem mem_b64Alphabet_litSafe : ∀ ch ∈ b64Alphabet, litSafe ch = true := by decide

theorem b64Digit_litSafe (n : Nat) : litSafe (b64Digit n) = true := by
  unfold b64Digit
  rw [List.getD_eq_getD_get?]
  cases hg : b64Alphabet.get? n with
  | none => decide
  | some ch =>
    simp only [Option.getD_some]
    exact mem_b64Alphabet_litSafe ch (List.get?_mem hg)

theorem b64Encode_litSafe : ∀ (bytes : List Nat), ∀ ch ∈ b64Encode bytes, litSafe ch = true
  | [] => by simp [b64Encode]
  | [a] => by
    simp only [b64Encode, List.mem_cons, List.mem_singleton]
    rintro ch (rfl | rfl | rfl | rfl | h)
    · exact b64Digit_litSafe _
    · exact b64Digit_litSafe _
    · decide
    · decide
    · cases h
  | [a, b] => by
    simp only [b64Encode, List.mem_cons, List.mem_singleton]
    rintro ch (rfl | rfl | rfl | rfl | h)
    · exact b64Digit_litSafe _
    · exact b64Digit_litSafe _
    · exact b64Digit_litSafe _
    · decide
    · cases h
  | a :: b :: c :: rest => by
    simp only [b64Encode, List.mem_cons]
    rintro ch (rfl | rfl | rfl | rfl | h)
    · exact b64Digit_litSafe _
    · exact b64Digit_litSafe _
    · exact b64Digit_litSafe _
    · exact b64Digit_litSafe _
    · exact b64Encode_litSafe rest ch h

/-- A VFS path containing a double quote: `/a"b`. -/
def quotePath : String := ⟨[Char.ofNat 47, Char.ofNat 97, Char.ofNat 34, Char.ofNat 98]⟩

/-- A search query that is a single backslash. -/
def bsQuery : String := ⟨[Char.ofNat 92]⟩

/-- C8 counterexample: the claim fails as stated, in both input classes.
Paths: for the valid path `/a"b` (no `..` segment, so it passes
validation), the `path = "…"` literal of the stat script does not read
back the translated path — the embedded program does not operate on that
string, and a stat of an existing file at that path reports `none`.
Queries: the search escaping replaces only the two quote characters and
never a backslash, so the backslash query passes through unchanged, the
`query = "…"` literal is left with a dangling escape that no lexing can
read back, and the search operation fails with 500 instead of operating
on the query. -/
theorem c8_counterexample :
    validatePath quotePath = .ok () ∧
    pyInterior (translatedPath cDemo quotePath).data
      ≠ some (translatedPath cDemo quotePath).data ∧
    (cDemo.statPath ⟨[⟨translatedPath cDemo quotePath, NodeKind.file, "x"⟩]⟩ quotePath).1
      = .ok none ∧
    safeQuery bsQuery = bsQuery ∧
    pyInterior (safeQuery bsQuery).data = none ∧
    (cDemo.search ⟨[⟨"/home/aisu", NodeKind.dir, ""⟩]⟩ bsQuery "/").1
      = .error ⟨500, "Filesystem operation failed"⟩ := by
  refine ⟨by rfl, by decide, by rfl, by decide, by rfl, by rfl⟩

/-- C8 amended: user text is transported exactly only on the literal-safe
domain — the search escaping covers the two quote characters but not the
backslash, and paths are interpolated with no escaping at all.  Precisely:
a path whose translation contains no quote, backslash or newline reaches
the stat script verbatim; a query free of backslash and newline (quotes
allowed) survives the quote-escaping and is read back verbatim by the
Python lexer; and `write_file` content of any shape travels as base64,
whose alphabet is literal-safe. -/
theorem c8_amended_transport (c : CFS) (p q content : String)
    (hcp : cleanStr (translatedPath c p) = true)
    (hq : ∀ ch ∈ q.data, ch ≠ Char.ofNat 92 ∧ ch ≠ Char.ofNat 10) :
    pyInterior (translatedPath c p).data = some (translatedPath c p).data ∧
    pyInterior (safeQuery q).data = some q.data ∧
    cleanStr (b64OfString content) = true := by
  refine ⟨pyInterior_of_clean _ hcp, pyInterior_safeQuery_list q.data hq, ?_⟩
  unfold cleanStr b64OfString
  rw [List.all_eq_true]
  intro ch hch
  exact b64Encode_litSafe _ ch hch

/-- Witness for C8's amended statement. -/
theorem c8_amended_transport_witness :
    cleanStr (translatedPath cDemo "/Documents/a.txt") = true ∧
    (∀ ch ∈ ("report" : String).data, ch ≠ Char.ofNat 92 ∧ ch ≠ Char.ofNat 10) ∧
    (pyInterior (translatedPath cDemo "/Documents/a.txt").data
       = some (translatedPath cDemo "/Documents/a.txt").data ∧
     pyInterior (safeQuery "report").data = some ("report" : String).data ∧
     cleanStr (b64OfString "hello world") = true) :=
  ⟨by decide, by decide,
    c8_amended_transport cDemo "/Documents/a.txt" "report" "hello world"
      (by decide) (by decide)⟩

/-! ### Claims C4 and C5 -/

/-- A container filesystem with a directory `/d` holding one file. -/
def fsDemo2 : Fs :=
  ⟨[⟨"/home/aisu", NodeKind.dir, ""⟩,
    ⟨"/home/aisu/d", NodeKind.dir, ""⟩,
    ⟨"/home/aisu/d/x", NodeKind.file, "hello"⟩]⟩

/-- Metadata: a desktop position on the descendant `/d/x`. -/
def dbDemo2 : Db := ⟨[⟨"/d/x", "x", false, none, some 3, some 4⟩]⟩

/-- C4 counterexample: renaming the directory `/d` to `e` succeeds, the
container content moves to `/e` (including `/e/x`), but the metadata row
of the descendant `/d/x` keeps its old path — it is not prefix-renamed to
`/e/x` as the claim asserts. -/
theorem c4_counterexample :
    (renameNode cDemo fsDemo2 dbDemo2 "/d" "e").map
        (fun r => (r.newPath, r.db.rows.map MetaRow.path, r.fs.paths))
      = .ok ("/e", ["/d/x"], ["/home/aisu", "/home/aisu/e", "/home/aisu/e/x"]) ∧
    strStartsWith "/d/x" ("/d" ++ "/") = true ∧
    (("/d/x" : String) ≠ "/e/x") := by
  refine ⟨by rfl, by rfl, by decide⟩

/-- C4 amended: a successful `renameNode` of `P` to `newName` updates the
metadata store only at the exact path `P` (repointing that single row to
the new path); metadata rows of descendants are left unchanged with their
old paths. -/
theorem c4_amended_exact_row_only (c : CFS) (fs : Fs) (db : Db) (p newName : String)
    (res : MoveResult) (h : renameNode c fs db p newName = .ok res) :
    res.oldPath = p ∧
    res.newPath = childPath (parentOr p) newName ∧
    res.db = db.updateMetaPath p res.newPath ∧
    ∀ r ∈ db.rows, r.path ≠ p → r ∈ res.db.rows := by
  have hkeep : ∀ np : String, ∀ r ∈ db.rows, r.path ≠ p → r ∈ (db.updateMetaPath p np).rows := by
    intro np r hr hne
    unfold Db.updateMetaPath
    refine List.mem_map.mpr ⟨r, hr, ?_⟩
    rw [if_neg (by simpa using hne)]
  simp only [renameNode] at h
  split at h
  · cases h
  · split at h
    · cases h
    · cases h
    · split at h
      · cases h
      · cases h
      · split at h
        · cases h
        · split at h
          · cases h
          · cases h
          · cases h
            exact ⟨rfl, rfl, rfl, hkeep _⟩

/-- Witness fixture: the rename result on the demo state. -/
def resC4 : MoveResult :=
  ⟨"/d", "/e",
    ⟨[⟨"/home/aisu", NodeKind.dir, ""⟩,
      ⟨"/home/aisu/e", NodeKind.dir, ""⟩,
      ⟨"/home/aisu/e/x", NodeKind.file, "hello"⟩]⟩,
    ⟨[⟨"/d/x", "x", false, none, some 3, some 4⟩]⟩⟩

/-- Witness for C4's amended statement. -/
theorem c4_amended_exact_row_only_witness :
    renameNode cDemo fsDemo2 dbDemo2 "/d" "e" = .ok resC4 ∧
    (resC4.oldPath = "/d" ∧
     resC4.newPath = childPath (parentOr "/d") "e" ∧
     resC4.db = dbDemo2.updateMetaPath "/d" resC4.newPath ∧
     ∀ r ∈ dbDemo2.rows, r.path ≠ "/d" → r ∈ resC4.db.rows) :=
  ⟨by rfl, c4_amended_exact_row_only cDemo fsDemo2 dbDemo2 "/d" "e" resC4 (by rfl)⟩

/-- C5 counterexample: a permanent delete of the directory `/d` removes
the content subtree, but only the metadata row exactly at `/d` — the
descendant row `/d/x` survives, contradicting the claim that no
descendant metadata row survives. -/
theorem c5_counterexample :
    (deleteNode cDemo fsDemo2 dbDemo2 "/d" true).map
        (fun r => (r.path, r.db.rows.map MetaRow.path, r.fs.paths))
      = .ok ("/d", ["/d/x"], ["/home/aisu"]) ∧
    strStartsWith "/d/x" ("/d" ++ "/") = true := by
  refine ⟨by rfl, by rfl⟩

/-- C5 amended: a successful permanent `deleteNode` of `P` removes the
container content at `P` and all content descendants, and deletes the
metadata row exactly at `P`; descendant metadata rows are not deleted. -/
theorem c5_amended_exact_row_only (c : CFS) (fs : Fs) (db : Db) (p : String)
    (res : DeleteResult) (h : deleteNode c fs db p true = .ok res) :
    res.path = p ∧
    res.fs.paths = fs.paths.filter (fun q => !(inSubtree (translatedPath c p) q)) ∧
    res.db = db.deleteMeta p ∧
    ∀ r ∈ db.rows, r.path ≠ p → r ∈ res.db.rows := by
  have hkeep : ∀ r ∈ db.rows, r.path ≠ p → r ∈ (db.deleteMeta p).rows := by
    intro r hr hne
    unfold Db.deleteMeta
    refine List.mem_filter.mpr ⟨hr, ?_⟩
    simpa using hne
  simp only [deleteNode] at h
  split at h
  · cases h
  · split at h
    · cases h
    · cases h
    · rw [if_pos trivial] at h
      simp only [CFS.delete] at h
      split at h
      · cases h
      next fs₁ heq =>
        cases h
        split at heq
        · cases heq
        next u hvp =>
          split at heq
          · cases heq
          · split at heq
            · cases heq
            next cp hv =>
              cases heq
              have hdd : hasDotDotSeg p = false := by
                cases u
                exact (validatePath_ok_iff p).mp hvp
              have hcp : cp = translatedPath c p := by
                have h2 := vfsToContainer_eq c p hdd
                rw [hv] at h2
                exact Except.ok.inj h2
              refine ⟨rfl, ?_, rfl, hkeep⟩
              simp only [hcp]
              exact removeTree_paths fs (translatedPath c p)

/-! ### Claim C2: helper lemmas -/

/-- Names of the children of the container directory `cD`. -/
def childNames (fs : Fs) (cD : String) : List String :=
  (fs.paths.filter (fun q => (rsplit1 q).1 == cD && q != cD)).map basenameStr

/-- Duplicate-free container paths give duplicate-free child names in every
directory: a child is its parent plus `/` plus its name. -/
theorem childNames_nodup (fs : Fs) (cD : String) (hnd : fs.paths.Nodup) :
    (childNames fs cD).Nodup := by
  unfold childNames
  apply List.Nodup.map_on
  · intro q₁ h₁ q₂ h₂ heq
    rw [List.mem_filter] at h₁ h₂
    obtain ⟨hm₁, hc₁⟩ := h₁
    obtain ⟨hm₂, hc₂⟩ := h₂
    simp only [Bool.and_eq_true, beq_iff_eq, bne_iff_ne, ne_eq] at hc₁ hc₂
    calc q₁ = cD ++ "/" ++ basenameStr q₁ := child_decomp q₁ cD hc₁.1 hc₁.2
      _ = cD ++ "/" ++ basenameStr q₂ := by rw [heq]
      _ = q₂ := (child_decomp q₂ cD hc₂.1 hc₂.2).symm
  · exact hnd.filter _

theorem rsplit1_fst_no_dotdot (p : String) (h : hasDotDotSeg p = false) :
    hasDotDotSeg (rsplit1 p).1 = false := by
  simp only [rsplit1]
  by_cases hl : (splitChar (Char.ofNat 47) p.data).length ≤ 1
  · rw [if_pos hl]
    exact h
  · rw [if_neg hl]
    have hmem : [Char.ofNat 46, Char.ofNat 46] ∉ splitChar (Char.ofNat 47) p.data := by
      intro hm
      rw [← hasDotDotSeg_iff, h] at hm
      cases hm
    rw [Bool.eq_false_iff]
    intro htrue
    rw [hasDotDotSeg_iff] at htrue
    rw [show (String.mk (joinChar (Char.ofNat 47)
        (splitChar (Char.ofNat 47) p.data).dropLast)).data
      = joinChar (Char.ofNat 47) (splitChar (Char.ofNat 47) p.data).dropLast from rfl] at htrue
    rw [splitChar_join_of_no_sep (Char.ofNat 47) _
      (fun g hg => mem_splitChar_no_sep (Char.ofNat 47) p.data g
        ((List.dropLast_sublist _).subset hg))
      (by
        intro hnil
        apply hl
        have hlen := congrArg List.length hnil
        rw [List.length_dropLast] at hlen
        simp only [List.length_nil] at hlen
        omega)] at htrue
    exact hmem ((List.dropLast_sublist _).subset htrue)

/-- The parent computed by `path.rsplit("/", 1)[0] or "/"` has no `..`
segment when the path has none. -/
theorem parentOr_no_dotdot (p : String) (h : hasDotDotSeg p = false) :
    hasDotDotSeg (parentOr p) = false := by
  unfold parentOr
  split
  · decide
  · exact rsplit1_fst_no_dotdot p h

/-- The chosen unique name has no slash: it is the base or `base N`. -/
theorem uniqueNameSpec_noSlash (c : CFS) (fs : Fs) (parent base chosen : String)
    (hb : noSlash base) (hspec : uniqueNameSpec c fs parent base chosen) :
    noSlash chosen := by
  rcases hspec with ⟨_, rfl⟩ | ⟨_, n, _, rfl, _, _⟩
  · exact hb
  · exact noSlash_candName base hb n

theorem mvCmd_nodup (fs fs₁ : Fs) (s d : String) (h : mvCmd fs s d = some fs₁)
    (hnd : fs.paths.Nodup) : fs₁.paths.Nodup := by
  unfold mvCmd at h
  split at h
  · injection h with h
    subst h
    exact mv_nodup fs s d hnd
  · cases h

theorem append_entry_nodup (fs : Fs) (e : Entry) (hnd : fs.paths.Nodup)
    (hne : fs.existsPath e.path = false) :
    (Fs.mk (fs.entries ++ [e])).paths.Nodup := by
  have hnotmem := (existsPath_false_iff fs e.path).mp hne
  simp only [Fs.paths, List.map_append, List.map_cons, List.map_nil] at *
  rw [List.nodup_append]
  refine ⟨hnd, List.nodup_singleton _, ?_⟩
  intro a ha hb
  simp only [List.mem_singleton] at hb
  subst hb
  exact hnotmem ha

theorem rename_nodup (c : CFS) (fs fs₁ : Fs) (o n : String)
    (h : (c.rename fs o n).1 = .ok fs₁) (hnd : fs.paths.Nodup) : fs₁.paths.Nodup := by
  simp only [CFS.rename] at h
  repeat' split at h
  all_goals cases h
  all_goals exact mvCmd_nodup _ _ _ _ (by assumption) hnd

theorem createFile_nodup (c : CFS) (fs fs₁ : Fs) (p : String)
    (h : (c.createFile fs p).1 = .ok fs₁) (hnd : fs.paths.Nodup) : fs₁.paths.Nodup := by
  simp only [CFS.createFile] at h
  split at h
  · cases h
  next cp hcv =>
    split at h
    next hex =>
      cases h
      exact hnd
    next hex =>
      split at h
      next hdir =>
        cases h
        have hfree : fs.existsPath cp = false := by
          cases hcp : fs.existsPath cp
          · rfl
          · exact absurd hcp hex
        exact append_entry_nodup fs ⟨cp, NodeKind.file, ""⟩ hnd hfree
      next => cases h

theorem createDirectory_nodup (c : CFS) (fs fs₁ : Fs) (p : String)
    (h : (c.createDirectory fs p).1 = .ok fs₁) (hnd : fs.paths.Nodup) : fs₁.paths.Nodup := by
  simp only [CFS.createDirectory] at h
  split at h
  · cases h
  next cp hcv =>
    split at h
    next fs' hmk =>
      cases h
      exact mkdirP_nodup fs cp fs₁ hmk hnd
    next hmk => cases h

/-- `move` on success returns `destParent/basename(src)` and preserves
duplicate-freeness of the container paths. -/
theorem move_ok_inv (c : CFS) (fs fs₁ : Fs) (s dp v : String)
    (h : (c.move fs s dp).1 = .ok (fs₁, v)) :
    v = childPath dp (basenameStr s) ∧ (fs.paths.Nodup → fs₁.paths.Nodup) := by
  simp only [CFS.move] at h
  repeat' split at h
  all_goals cases h
  all_goals exact ⟨rfl, fun hnd => mvCmd_nodup _ _ _ _ (by assumption) hnd⟩

/-- `copy` on success returns `destParent/basename(src)` and preserves
duplicate-freeness of the container paths. -/
theorem copy_ok_inv (c : CFS) (fs fs₁ : Fs) (s dp v : String)
    (h : (c.copy fs s dp).1 = .ok (fs₁, v)) :
    v = childPath dp (basenameStr s) ∧ (fs.paths.Nodup → fs₁.paths.Nodup) := by
  simp only [CFS.copy] at h
  repeat' split at h
  all_goals cases h
  all_goals exact ⟨rfl, fun hnd => cp_nodup _ _ _ _ (by assumption) hnd⟩

/-- Witness fixture: the permanent-delete result on the demo state. -/
def resC5 : DeleteResult :=
  ⟨"/d", false, none, ⟨[⟨"/home/aisu", NodeKind.dir, ""⟩]⟩,
    ⟨[⟨"/d/x", "x", false, none, some 3, some 4⟩]⟩⟩

/-- Witness for C5's amended statement. -/
theorem c5_amended_exact_row_only_witness :
    deleteNode cDemo fsDemo2 dbDemo2 "/d" true = .ok resC5 ∧
    (resC5.path = "/d" ∧
     resC5.fs.paths = fsDemo2.paths.filter
       (fun q => !(inSubtree (translatedPath cDemo "/d") q)) ∧
     resC5.db = dbDemo2.deleteMeta "/d" ∧
     ∀ r ∈ dbDemo2.rows, r.path ≠ "/d" → r ∈ resC5.db.rows) :=
  ⟨by rfl, c5_amended_exact_row_only cDemo fsDemo2 dbDemo2 "/d" resC5 (by rfl)⟩

/-! ### Claim C3: helper lemmas -/

theorem strAppend_assoc (a b d : String) : (a ++ b) ++ d = a ++ (b ++ d) := by
  apply String.ext
  simp [String.data_append]

theorem relocate_self (src dst : String) : relocate src dst src = dst := by
  unfold relocate
  rw [show strDrop src (strLen src) = "" from String.ext (by simp [strDrop, strLen]),
    strAppend_empty]

theorem inSubtree_self (r : String) : inSubtree r r = true := by
  unfold inSubtree
  simp

theorem inSubtree_eq_false (root p : String) (h1 : p ≠ root)
    (h2 : strStartsWith p (root ++ "/") = false) : inSubtree root p = false := by
  unfold inSubtree
  rw [h2]
  simpa using h1

theorem startsWith_weaken (s a b : String) (h : strStartsWith s (a ++ b) = true) :
    strStartsWith s a = true := by
  rcases (strStartsWith_iff _ _).mp h with ⟨t, rfl⟩
  rw [strAppend_assoc]
  exact (strStartsWith_iff _ _).mpr ⟨b ++ t, rfl⟩

theorem strLen_le_of_startsWith (s p : String) (h : strStartsWith s p = true) :
    strLen p ≤ strLen s := by
  rcases (strStartsWith_iff _ _).mp h with ⟨t, rfl⟩
  rw [strLen_append]
  omega

theorem slash_mem_of_startsWith (P : String) (h : strStartsWith P "/" = true) :
    Char.ofNat 47 ∈ P.data := by
  rcases startsSlash_decomp P h with ⟨t, rfl⟩
  rw [String.data_append]
  exact List.mem_append.mpr (Or.inl (by decide))

theorem strLen_parentOr_lt (P : String) (hmem : Char.ofNat 47 ∈ P.data) (hne : P ≠ "/") :
    strLen (parentOr P) < strLen P := by
  have hdec := eq_parent_slash_basename P hmem
  have hlenP := congrArg strLen hdec
  rw [strLen_append, strLen_append, show strLen "/" = 1 from rfl] at hlenP
  unfold parentOr
  split
  next hfst =>
    rw [hfst, show strLen "" = 0 from rfl] at hlenP
    rw [show strLen "/" = 1 from rfl]
    by_cases hbn : strLen (rsplit1 P).2 = 0
    · exfalso
      have hbn' : (rsplit1 P).2 = "" := String.ext (List.length_eq_zero.mp hbn)
      rw [hfst, hbn'] at hdec
      rw [show ("" ++ "/" ++ "" : String) = "/" from by decide] at hdec
      exact hne hdec
    · omega
  next hfst => omega

theorem parentOr_not_trash (P : String)
    (hnorm : childPath (parentOr P) (basenameStr P) = P)
    (hPnt : strStartsWith P "/.Trash/" = false) :
    strStartsWith (parentOr P) "/.Trash/" = false := by
  cases hsw : strStartsWith (parentOr P) "/.Trash/" with
  | false => rfl
  | true =>
    exfalso
    rcases (strStartsWith_iff _ _).mp hsw with ⟨t, hpt⟩
    by_cases hp : parentOr P = "/"
    · rw [hp] at hpt
      have hl := congrArg strLen hpt
      rw [strLen_append, show strLen "/" = 1 from rfl,
        show strLen "/.Trash/" = 8 from rfl] at hl
      omega
    · have hP : P = parentOr P ++ "/" ++ basenameStr P := by
        have h2 := hnorm.symm
        rw [childPath_eq_append, if_neg hp] at h2
        exact h2
      rw [hpt] at hP
      have hsw2 : strStartsWith P "/.Trash/" = true := by
        rw [hP, strAppend_assoc, strAppend_assoc]
        exact (strStartsWith_iff _ _).mpr ⟨t ++ ("/" ++ basenameStr P), rfl⟩
      rw [hsw2] at hPnt
      cases hPnt

theorem path_mem_of_entry (fs : Fs) (e : Entry) (he : e ∈ fs.entries) :
    e.path ∈ fs.paths :=
  List.mem_map_of_mem Entry.path he

/-- An entry outside the clobbered target survives `mv src dst`, relocated
when it sits in the moved subtree. -/
theorem mv_entry_mem (fs : Fs) (src dst : String) (e : Entry) (he : e ∈ fs.entries)
    (hout : inSubtree dst e.path = false) :
    (if inSubtree src e.path then { e with path := relocate src dst e.path } else e)
      ∈ ((fs.removeTree dst).moveTree src dst).entries := by
  unfold Fs.removeTree Fs.moveTree
  exact List.mem_map.mpr ⟨e, List.mem_filter.mpr ⟨he, by rw [hout]; rfl⟩, rfl⟩

/-- A path outside both the source subtree and the clobbered target
survives `mv src dst` unchanged. -/
theorem mv_keep_path (fs : Fs) (src dst q : String) (hq : q ∈ fs.paths)
    (h1 : inSubtree dst q = false) (h2 : inSubtree src q = false) :
    q ∈ ((fs.removeTree dst).moveTree src dst).paths := by
  rw [mv_paths]
  refine List.mem_map.mpr ⟨q, List.mem_filter.mpr ⟨hq, by rw [h1]; rfl⟩, by simp [h2]⟩

/-- After the soft-delete upsert of the trash row and the exact-path delete
of the original row, the lookup the restore performs finds a trashed row
whose `original_path` is the deleted path. -/
theorem upsert_delete_find (db : Db) (t P : String) (hne : t ≠ P) :
    ∃ r, ((db.upsertMeta t none none true (some P)).deleteMeta P).rows.find?
        (fun r => r.path == t && r.isTrashed) = some r ∧
      r.originalPath = some P := by
  have hall : ∀ r ∈ ((db.upsertMeta t none none true (some P)).deleteMeta P).rows,
      r.path = t → r.originalPath = some P := by
    intro r hr hp
    unfold Db.deleteMeta Db.upsertMeta at hr
    rcases List.mem_filter.mp hr with ⟨hr', _⟩
    split at hr'
    · rcases List.mem_map.mp hr' with ⟨r₀, hr₀, rfl⟩
      by_cases h₀ : (r₀.path == t) = true
      · rw [if_pos h₀]
      · rw [if_neg h₀] at hp ⊢
        exact absurd (beq_iff_eq.mpr hp) h₀
    next hany =>
      rcases List.mem_append.mp hr' with hin | hin
      · exfalso
        apply hany
        exact List.any_eq_true.mpr ⟨r, hin, beq_iff_eq.mpr hp⟩
      · rw [List.mem_singleton.mp hin]
  have hex : ∃ r ∈ ((db.upsertMeta t none none true (some P)).deleteMeta P).rows,
      (r.path == t && r.isTrashed) = true := by
    unfold Db.deleteMeta Db.upsertMeta
    split
    next hany =>
      rcases List.any_eq_true.mp hany with ⟨r₀, hr₀, hbeq⟩
      have hrp : r₀.path = t := beq_iff_eq.mp hbeq
      refine ⟨_, List.mem_filter.mpr ⟨List.mem_map.mpr ⟨r₀, hr₀, rfl⟩, ?_⟩, ?_⟩
      · rw [if_pos hbeq]
        simp only [Bool.not_eq_true']
        simpa [hrp] using hne
      · rw [if_pos hbeq]
        simp [hrp]
    next hany =>
      refine ⟨_, List.mem_filter.mpr
        ⟨List.mem_append.mpr (Or.inr (List.mem_singleton.mpr rfl)), ?_⟩, ?_⟩
      · simp only [Bool.not_eq_true']
        simpa using hne
      · simp
  rcases hfind : ((db.upsertMeta t none none true (some P)).deleteMeta P).rows.find?
      (fun r => r.path == t && r.isTrashed) with _ | r
  · exfalso
    rcases hex with ⟨r, hr, hpr⟩
    have := List.find?_eq_none.mp hfind r hr
    rw [hpr] at this
    cases this rfl
  · refine ⟨r, hfind, ?_⟩
    have hp := List.find?_some hfind
    rw [Bool.and_eq_true, beq_iff_eq] at hp
    exact hall r (List.mem_of_find?_eq_some hfind) hp.1

theorem deleteMeta_find_none (db : Db) (p : String) : (db.deleteMeta p).find? p = none := by
  unfold Db.find? Db.deleteMeta
  rw [List.find?_eq_none]
  intro r hr
  have h2 := (List.mem_filter.mp hr).2
  simpa using h2

/-- Evaluation of `restore_node` on a state holding a trashed row for
`/.Trash/<basename P>` whose original path `P` is restorable: the parent
exists, `P` itself is free, and the trashed content is present. -/
theorem restore_eval (c : CFS) (fs₂ : Fs) (db₂ : Db) (P content : String) (r : MetaRow)
    (hfr : db₂.rows.find? (fun x => x.path == ("/.Trash/" ++ basenameStr P) && x.isTrashed)
      = some r)
    (hor : r.originalPath = some P)
    (hPne : P ≠ "")
    (hdd : hasDotDotSeg P = false)
    (hroot : P ≠ "/")
    (hPnorm : childPath (parentOr P) (basenameStr P) = P)
    (hBclean : cleanStr (c.basePath ++ P) = true)
    (hparent₂ : fs₂.existsPath (translatedPath c (parentOr P)) = true)
    (habs : fs₂.existsPath (c.basePath ++ P) = false)
    (hex₁ : fs₂.existsPath (c.basePath ++ ("/.Trash/" ++ basenameStr P)) = true)
    (htCne : c.basePath ++ ("/.Trash/" ++ basenameStr P) ≠ c.basePath ++ P)
    (hfind3 : ((fs₂.removeTree (c.basePath ++ P)).moveTree
        (c.basePath ++ ("/.Trash/" ++ basenameStr P)) (c.basePath ++ P)).find?
        (c.basePath ++ P) = some (Entry.mk (c.basePath ++ P) NodeKind.file content)) :
    restoreNode c fs₂ db₂ ("/.Trash/" ++ basenameStr P) = .ok
      ⟨"/.Trash/" ++ basenameStr P, P,
        (fs₂.removeTree (c.basePath ++ P)).moveTree
          (c.basePath ++ ("/.Trash/" ++ basenameStr P)) (c.basePath ++ P),
        db₂.deleteMeta ("/.Trash/" ++ basenameStr P)⟩ := by
  have hbn_ns : noSlash (basenameStr P) := basenameStr_noSlash P
  have hbn_ne2 : basenameStr P ≠ ".." := basenameStr_ne_dotdot P hdd
  have htV_child : ("/.Trash/" ++ basenameStr P) = childPath "/.Trash" (basenameStr P) := by
    rw [childPath_eq_append, if_neg (by decide),
      show ("/.Trash/" : String) = "/.Trash" ++ "/" from by decide, strAppend_assoc]
  have htV_dd : hasDotDotSeg ("/.Trash/" ++ basenameStr P) = false := by
    rw [htV_child]
    exact hasDotDotSeg_childPath "/.Trash" _ (by decide) hbn_ns hbn_ne2
  have htV_ne_root : ("/.Trash/" ++ basenameStr P) ≠ "/" := by
    intro h
    have hl := congrArg strLen h
    rw [strLen_append, show strLen "/.Trash/" = 8 from rfl,
      show strLen "/" = 1 from rfl] at hl
    omega
  have htp : translatedPath c P = c.basePath ++ P := by
    unfold translatedPath
    rw [if_neg hroot]
  have hvP : c.vfsToContainer P = .ok (c.basePath ++ P) := by
    rw [vfsToContainer_eq c P hdd, htp]
  have hvT : c.vfsToContainer ("/.Trash/" ++ basenameStr P)
      = .ok (c.basePath ++ ("/.Trash/" ++ basenameStr P)) := by
    rw [vfsToContainer_eq c _ htV_dd]
    unfold translatedPath
    rw [if_neg htV_ne_root]
  have hpar : hasDotDotSeg (parentOr P) = false := parentOr_no_dotdot P hdd
  have hexp : (c.existsOp fs₂ (parentOr P)).1 = .ok true := by
    rw [existsOp_eq c fs₂ (parentOr P) hpar]
    show Except.ok (fs₂.existsPath (translatedPath c (parentOr P))) = Except.ok true
    rw [hparent₂]
  have hcond : fs₂.existsPath (translatedPath c (childPath (parentOr P) (basenameStr P)))
      = false := by
    rw [hPnorm, htp]
    exact habs
  have hgun : (c.generateUniqueName fs₂ (parentOr P) (basenameStr P)).1
      = .ok (basenameStr P) := by
    rw [generateUniqueName_fst c fs₂ (parentOr P) (basenameStr P) hpar hbn_ns hbn_ne2]
    rw [if_neg (by rw [hcond]; decide)]
  have hmv2 : mvCmd fs₂ (c.basePath ++ ("/.Trash/" ++ basenameStr P)) (c.basePath ++ P)
      = some ((fs₂.removeTree (c.basePath ++ P)).moveTree
          (c.basePath ++ ("/.Trash/" ++ basenameStr P)) (c.basePath ++ P)) := by
    unfold mvCmd
    rw [if_pos ⟨hex₁, htCne⟩]
  have hstat2 : (c.statPath ((fs₂.removeTree (c.basePath ++ P)).moveTree
      (c.basePath ++ ("/.Trash/" ++ basenameStr P)) (c.basePath ++ P)) P).1
      = .ok (some (entryInfo (Entry.mk (c.basePath ++ P) NodeKind.file content))) := by
    rw [statPath_fst c _ P hdd (by rw [htp]; exact hBclean), htp, hfind3]
    rfl
  simp only [restoreNode, hfr, hor, if_neg hPne, hexp, hgun, hPnorm, hvT, hvP, hmv2, hstat2]

/-- Evaluation of the soft-delete path of `delete_node` on a file at `P`:
the trash name is collision-free, `/.Trash` already exists, and the result
moves the content to `/.Trash/<basename P>` while the metadata gains the
trashed row and loses the exact-path row. -/
theorem softDelete_eval (c : CFS) (fs : Fs) (db : Db) (P content : String)
    (hBclean : cleanStr (c.basePath ++ P) = true)
    (hdd : hasDotDotSeg P = false)
    (hroot : P ≠ "/")
    (hmem : Entry.mk (c.basePath ++ P) NodeKind.file content ∈ fs.entries)
    (hnd : fs.paths.Nodup)
    (hcol : fs.existsPath (c.basePath ++ ("/.Trash/" ++ basenameStr P)) = false)
    (htr : ∀ a ∈ slashAncestors (c.basePath ++ "/.Trash"),
      fs.existsPath a = true ∧ fs.isFileAt a = false)
    (hPnt : strStartsWith P "/.Trash/" = false) :
    deleteNode c fs db P false = .ok
      ⟨"/.Trash/" ++ basenameStr P, true, some P,
        (fs.removeTree (c.basePath ++ ("/.Trash/" ++ basenameStr P))).moveTree
          (c.basePath ++ P) (c.basePath ++ ("/.Trash/" ++ basenameStr P)),
        (db.upsertMeta ("/.Trash/" ++ basenameStr P) none none true (some P)).deleteMeta P⟩ := by
  have hbn_ns : noSlash (basenameStr P) := basenameStr_noSlash P
  have hbn_ne2 : basenameStr P ≠ ".." := basenameStr_ne_dotdot P hdd
  have htV_sw : strStartsWith ("/.Trash/" ++ basenameStr P) "/.Trash/" = true :=
    (strStartsWith_iff _ _).mpr ⟨basenameStr P, rfl⟩
  have htV_ne_P : ("/.Trash/" ++ basenameStr P) ≠ P := by
    intro h
    have h2 := htV_sw
    rw [h, hPnt] at h2
    cases h2
  have htV_child : ("/.Trash/" ++ basenameStr P) = childPath "/.Trash" (basenameStr P) := by
    rw [childPath_eq_append, if_neg (by decide),
      show ("/.Trash/" : String) = "/.Trash" ++ "/" from by decide, strAppend_assoc]
  have htV_dd : hasDotDotSeg ("/.Trash/" ++ basenameStr P) = false := by
    rw [htV_child]
    exact hasDotDotSeg_childPath "/.Trash" _ (by decide) hbn_ns hbn_ne2
  have htV_ne_root : ("/.Trash/" ++ basenameStr P) ≠ "/" := by
    intro h
    have hl := congrArg strLen h
    rw [strLen_append, show strLen "/.Trash/" = 8 from rfl,
      show strLen "/" = 1 from rfl] at hl
    omega
  have htp : translatedPath c P = c.basePath ++ P := by
    unfold translatedPath
    rw [if_neg hroot]
  have htptV : translatedPath c ("/.Trash/" ++ basenameStr P)
      = c.basePath ++ ("/.Trash/" ++ basenameStr P) := by
    unfold translatedPath
    rw [if_neg htV_ne_root]
  have hvP : c.vfsToContainer P = .ok (c.basePath ++ P) := by
    rw [vfsToContainer_eq c P hdd, htp]
  have hvT : c.vfsToContainer ("/.Trash/" ++ basenameStr P)
      = .ok (c.basePath ++ ("/.Trash/" ++ basenameStr P)) := by
    rw [vfsToContainer_eq c _ htV_dd, htptV]
  have hval : validatePath P = .ok () := (validatePath_ok_iff P).mpr hdd
  have hfind0 : fs.find? (c.basePath ++ P)
      = some (Entry.mk (c.basePath ++ P) NodeKind.file content) :=
    Fs.find?_eq fs hnd _ hmem
  have hstat1 : (c.statPath fs P).1
      = .ok (some (entryInfo (Entry.mk (c.basePath ++ P) NodeKind.file content))) := by
    rw [statPath_fst c fs P hdd (by rw [htp]; exact hBclean), htp, hfind0]
    rfl
  have hexTT : c.existsOp fs ("/.Trash/" ++ basenameStr P)
      = (.ok false, [["test", "-e", c.basePath ++ ("/.Trash/" ++ basenameStr P)]]) := by
    rw [existsOp_eq c fs _ htV_dd, htptV, hcol]
  have hvTr : c.vfsToContainer "/.Trash" = .ok (c.basePath ++ "/.Trash") := by
    rw [vfsToContainer_eq c "/.Trash" (by decide)]
    unfold translatedPath
    rw [if_neg (by decide)]
  have hmkd : mkdirP fs (c.basePath ++ "/.Trash") = some fs :=
    mkdirP_id fs _ (fun a ha => (htr a ha).1) (fun a ha => (htr a ha).2)
  have hcd : c.createDirectory fs "/.Trash"
      = (.ok fs, [["mkdir", "-p", c.basePath ++ "/.Trash"]]) := by
    simp only [CFS.createDirectory, hvTr, hmkd]
  have hsrc_ex : fs.existsPath (c.basePath ++ P) = true :=
    (existsPath_iff fs _).mpr (path_mem_of_entry fs _ hmem)
  have hsrc_ne_tC : c.basePath ++ P ≠ c.basePath ++ ("/.Trash/" ++ basenameStr P) := by
    intro h
    exact htV_ne_P ((strAppend_left_inj _ _ _).mp h).symm
  have hmv1 : mvCmd fs (c.basePath ++ P) (c.basePath ++ ("/.Trash/" ++ basenameStr P))
      = some ((fs.removeTree (c.basePath ++ ("/.Trash/" ++ basenameStr P))).moveTree
          (c.basePath ++ P) (c.basePath ++ ("/.Trash/" ++ basenameStr P))) := by
    unfold mvCmd
    rw [if_pos ⟨hsrc_ex, hsrc_ne_tC⟩]
  have hmtt : (c.moveToTrash fs P).1 = .ok
      ((fs.removeTree (c.basePath ++ ("/.Trash/" ++ basenameStr P))).moveTree
        (c.basePath ++ P) (c.basePath ++ ("/.Trash/" ++ basenameStr P)),
       "/.Trash/" ++ basenameStr P) := by
    simp only [CFS.moveToTrash, hval, if_neg hroot, hvT, hexTT, hcd, hvP, hmv1,
      Bool.false_eq_true, if_false]
  simp only [deleteNode, if_neg hroot, hstat1, hmtt, Bool.false_eq_true, if_false]

/-- The moved entry itself: `mv src dst` takes the entry at `src` to `dst`
with kind and content intact. -/
theorem mv_entry_src (fs : Fs) (src dst content : String) (kind : NodeKind)
    (he : Entry.mk src kind content ∈ fs.entries) (hout : inSubtree dst src = false) :
    Entry.mk dst kind content ∈ ((fs.removeTree dst).moveTree src dst).entries := by
  have h := mv_entry_mem fs src dst (Entry.mk src kind content) he hout
  rw [show (Entry.mk src kind content).path = src from rfl, inSubtree_self, if_pos rfl,
    relocate_self] at h
  exact h

/-- A trashed-file fixture: `/Docs` exists, `/.Trash/f` holds a trashed
file whose metadata row points back at `/Docs/f`. -/
def metaDemo3 : MetaRow := ⟨"/.Trash/f", "f", true, some "/Docs/f", none, none⟩

def fsDemo3 : Fs :=
  ⟨[⟨"/home/aisu", NodeKind.dir, ""⟩,
    ⟨"/home/aisu/Docs", NodeKind.dir, ""⟩,
    ⟨"/home/aisu/.Trash", NodeKind.dir, ""⟩,
    ⟨"/home/aisu/.Trash/f", NodeKind.file, "x"⟩]⟩

def dbDemo3 : Db := ⟨[metaDemo3]⟩

/-- C2: after a successful `createNode`, `moveNode`, `copyNode` or
`restoreNode` into a parent directory, no two children of any directory of
the resulting filesystem share a name (duplicate-free paths are preserved),
and the name given to the new node follows `generate_unique_name`'s
contract: the requested base name when `parent/base` is absent, else the
first free `base N` with `N ≥ 2`. -/
theorem c2_unique_name_invariant (c : CFS) (fs : Fs) (db : Db)
    (D base nodeType srcPath trashPath : String) (meta : MetaRow) (origPath : String)
    (hnd : fs.paths.Nodup)
    (hD : hasDotDotSeg D = false) (hbase : noSlash base) (hbne : base ≠ "..")
    (hsrc : hasDotDotSeg srcPath = false)
    (hfind : db.rows.find? (fun r => r.path == trashPath && r.isTrashed) = some meta)
    (horig : meta.originalPath = some origPath)
    (horigdd : hasDotDotSeg origPath = false)
    (hparent : (c.existsOp fs (parentOr origPath)).1 = .ok true) :
    (∀ res : NodeResult, createNode c fs db D base nodeType = .ok res →
        (∀ dirC, (childNames res.fs dirC).Nodup) ∧
        ∃ u, uniqueNameSpec c fs D base u ∧ res.path = childPath D u) ∧
    (∀ res : MoveResult, moveNode c fs db srcPath D = .ok res →
        (∀ dirC, (childNames res.fs dirC).Nodup) ∧
        ∃ u, uniqueNameSpec c fs D (basenameStr srcPath) u ∧ res.newPath = childPath D u) ∧
    (∀ res : MoveResult, copyNode c fs db srcPath D = .ok res →
        (∀ dirC, (childNames res.fs dirC).Nodup) ∧
        ∃ u, uniqueNameSpec c fs D (basenameStr srcPath) u ∧ res.newPath = childPath D u) ∧
    (∀ res : MoveResult, restoreNode c fs db trashPath = .ok res →
        (∀ dirC, (childNames res.fs dirC).Nodup) ∧
        ∃ u, uniqueNameSpec c fs (parentOr origPath) (basenameStr origPath) u ∧
          res.newPath = childPath (parentOr origPath) u) := by
  refine ⟨?_, ?_, ?_, ?_⟩
  · -- createNode
    intro res h
    simp only [createNode] at h
    split at h
    · cases h
    · cases h
    next parentInfo hps =>
      split at h
      · cases h
      · split at h
        · cases h
        next u hu =>
          split at h
          · cases h
          next fs' hmade =>
            split at h
            · cases h
            · cases h
            · cases h
              have hnd' : fs'.paths.Nodup := by
                split at hmade
                · exact createDirectory_nodup c fs fs' _ hmade hnd
                · exact createFile_nodup c fs fs' _ hmade hnd
              exact ⟨fun dirC => childNames_nodup fs' dirC hnd', u,
                generateUniqueName_sound c fs D base u hD hbase hbne hu, rfl⟩
  · -- moveNode
    intro res h
    simp only [moveNode] at h
    split at h
    · cases h
    · split at h
      · cases h
      · split at h
        · cases h
        · cases h
        · split at h
          · cases h
          · cases h
          next destInfo hds =>
            split at h
            · cases h
            · split at h
              · cases h
              next u hu =>
                split at h
                · cases h
                next fs₁ newVfs heq =>
                  split at h
                  · cases h
                  · cases h
                  · cases h
                    have hspec := generateUniqueName_sound c fs D (basenameStr srcPath) u hD
                      (basenameStr_noSlash srcPath) (basenameStr_ne_dotdot srcPath hsrc) hu
                    have hns : noSlash u := uniqueNameSpec_noSlash c fs D (basenameStr srcPath) u
                      (basenameStr_noSlash srcPath) hspec
                    have hkey : newVfs = childPath D u ∧ fs₁.paths.Nodup := by
                      split at heq
                      next hne =>
                        split at heq
                        · cases heq
                        next fsT hren =>
                          obtain ⟨hv, hpr⟩ := move_ok_inv c fsT fs₁
                            (childPath (parentOr srcPath) u) D newVfs heq
                          refine ⟨?_, hpr (rename_nodup c fs fsT srcPath _ hren hnd)⟩
                          rw [hv, basenameStr_childPath (parentOr srcPath) u hns]
                      next hne =>
                        obtain ⟨hv, hpr⟩ := move_ok_inv c fs fs₁ srcPath D newVfs heq
                        refine ⟨?_, hpr hnd⟩
                        rw [hv, ← not_not.mp hne]
                    exact ⟨fun dirC => childNames_nodup fs₁ dirC hkey.2, u, hspec, hkey.1⟩
  · -- copyNode
    intro res h
    simp only [copyNode] at h
    split at h
    · cases h
    · cases h
    · split at h
      · cases h
      · cases h
      next destInfo hds =>
        split at h
        · cases h
        · split at h
          · cases h
          next u hu =>
            split at h
            · cases h
            next fs₁ copiedVfs hcp =>
              split at h
              · cases h
              next fs₂ newVfs heq =>
                split at h
                · cases h
                · cases h
                · cases h
                  have hspec := generateUniqueName_sound c fs D (basenameStr srcPath) u hD
                    (basenameStr_noSlash srcPath) (basenameStr_ne_dotdot srcPath hsrc) hu
                  obtain ⟨hcv, hcnd⟩ := copy_ok_inv c fs fs₁ srcPath D copiedVfs hcp
                  have hkey : newVfs = childPath D u ∧ fs₂.paths.Nodup := by
                    split at heq
                    next hne =>
                      split at heq
                      · cases heq
                      next fs₂' hren =>
                        cases heq
                        exact ⟨rfl, rename_nodup c fs₁ fs₂ _ _ hren (hcnd hnd)⟩
                    next hne =>
                      cases heq
                      refine ⟨?_, hcnd hnd⟩
                      rw [hcv, ← not_not.mp hne]
                  exact ⟨fun dirC => childNames_nodup fs₂ dirC hkey.2, u, hspec, hkey.1⟩
  · -- restoreNode
    intro res h
    simp only [restoreNode] at h
    split at h
    · cases h
    next meta' hfind' =>
      rw [hfind] at hfind'
      injection hfind' with hme
      subst hme
      split at h
      · cases h
      next origPath' horig' =>
        rw [horig] at horig'
        injection horig' with hop
        subst hop
        split at h
        · cases h
        next hoe =>
          split at h
          next e heqE =>
            cases h
          next fs₁ heqE =>
            simp only [hparent] at heqE
            injection heqE with hfs
            subst hfs
            split at h
            · cases h
            next u hu =>
              split at h
              next srcC destC hv1 hv2 =>
                split at h
                · cases h
                next fs₂ hmv =>
                  split at h
                  · cases h
                  · cases h
                  · cases h
                    exact ⟨fun dirC => childNames_nodup fs₂ dirC
                        (mvCmd_nodup fs fs₂ srcC destC hmv hnd), u,
                      generateUniqueName_sound c fs (parentOr origPath) (basenameStr origPath) u
                        (parentOr_no_dotdot origPath horigdd) (basenameStr_noSlash origPath)
                        (basenameStr_ne_dotdot origPath horigdd) hu, rfl⟩
              next e hv1 => cases h
              next e hv2 => cases h

/-- Witness for C2 at the trashed-file fixture. -/
theorem c2_unique_name_invariant_witness :
    fsDemo3.paths.Nodup ∧
    dbDemo3.rows.find? (fun r => r.path == "/.Trash/f" && r.isTrashed) = some metaDemo3 ∧
    metaDemo3.originalPath = some "/Docs/f" ∧
    (cDemo.existsOp fsDemo3 (parentOr "/Docs/f")).1 = .ok true ∧
    ((∀ res : NodeResult, createNode cDemo fsDemo3 dbDemo3 "/Docs" "nb" "file" = .ok res →
        (∀ dirC, (childNames res.fs dirC).Nodup) ∧
        ∃ u, uniqueNameSpec cDemo fsDemo3 "/Docs" "nb" u ∧ res.path = childPath "/Docs" u) ∧
     (∀ res : MoveResult, moveNode cDemo fsDemo3 dbDemo3 "/Docs" "/Docs" = .ok res →
        (∀ dirC, (childNames res.fs dirC).Nodup) ∧
        ∃ u, uniqueNameSpec cDemo fsDemo3 "/Docs" (basenameStr "/Docs") u ∧
          res.newPath = childPath "/Docs" u) ∧
     (∀ res : MoveResult, copyNode cDemo fsDemo3 dbDemo3 "/Docs" "/Docs" = .ok res →
        (∀ dirC, (childNames res.fs dirC).Nodup) ∧
        ∃ u, uniqueNameSpec cDemo fsDemo3 "/Docs" (basenameStr "/Docs") u ∧
          res.newPath = childPath "/Docs" u) ∧
     (∀ res : MoveResult, restoreNode cDemo fsDemo3 dbDemo3 "/.Trash/f" = .ok res →
        (∀ dirC, (childNames res.fs dirC).Nodup) ∧
        ∃ u, uniqueNameSpec cDemo fsDemo3 (parentOr "/Docs/f") (basenameStr "/Docs/f") u ∧
          res.newPath = childPath (parentOr "/Docs/f") u)) :=
  ⟨by decide, by rfl, by rfl, by rfl,
   c2_unique_name_invariant cDemo fsDemo3 dbDemo3 "/Docs" "nb" "file" "/Docs" "/.Trash/f"
     metaDemo3 "/Docs/f" (by decide) (by decide) (by unfold noSlash; decide) (by decide)
     (by decide) (by rfl) (by rfl) (by decide) (by rfl)⟩

/-- C3: for a file at a normalized leaf path `P` other than `/` (parent
present, trash name free, `/.Trash` in place, `P` outside the trash), the
soft delete returns the trashed path `/.Trash/<basename P>` recording
`original_path = P`, and restoring that trashed path succeeds, puts the
node back at exactly `P` with its content byte-for-byte intact, and
deletes the trashed metadata row. -/
theorem c3_soft_delete_restore_roundtrip (c : CFS) (fs : Fs) (db : Db) (P content : String)
    (hBclean : cleanStr (c.basePath ++ P) = true)
    (hdd : hasDotDotSeg P = false)
    (hroot : P ≠ "/")
    (hslash : strStartsWith P "/" = true)
    (hPnorm : childPath (parentOr P) (basenameStr P) = P)
    (hmem : Entry.mk (c.basePath ++ P) NodeKind.file content ∈ fs.entries)
    (hnd : fs.paths.Nodup)
    (hcol : fs.existsPath (c.basePath ++ ("/.Trash/" ++ basenameStr P)) = false)
    (htr : ∀ a ∈ slashAncestors (c.basePath ++ "/.Trash"),
      fs.existsPath a = true ∧ fs.isFileAt a = false)
    (hparent : fs.existsPath (translatedPath c (parentOr P)) = true)
    (hPtr : strStartsWith "/.Trash/" (P ++ "/") = false)
    (hPnt : strStartsWith P "/.Trash/" = false) :
    ∃ res₁ : DeleteResult, deleteNode c fs db P false = .ok res₁ ∧
      res₁.path = "/.Trash/" ++ basenameStr P ∧
      res₁.isTrashed = true ∧
      res₁.originalPath = some P ∧
      ∃ res₂ : MoveResult, restoreNode c res₁.fs res₁.db res₁.path = .ok res₂ ∧
        res₂.newPath = P ∧
        res₂.fs.find? (c.basePath ++ P)
          = some (Entry.mk (c.basePath ++ P) NodeKind.file content) ∧
        res₂.db.find? ("/.Trash/" ++ basenameStr P) = none := by
  have hPmem47 : Char.ofNat 47 ∈ P.data := slash_mem_of_startsWith P hslash
  have hPne : P ≠ "" := by
    intro h
    rw [h] at hslash
    exact absurd hslash (by decide)
  have hbn_ns : noSlash (basenameStr P) := basenameStr_noSlash P
  have htV_sw : strStartsWith ("/.Trash/" ++ basenameStr P) "/.Trash/" = true :=
    (strStartsWith_iff _ _).mpr ⟨basenameStr P, rfl⟩
  have htV_ne_P : ("/.Trash/" ++ basenameStr P) ≠ P := by
    intro h
    have h2 := htV_sw
    rw [h, hPnt] at h2
    cases h2
  have hsrc_ne_tC : c.basePath ++ P ≠ c.basePath ++ ("/.Trash/" ++ basenameStr P) := by
    intro h
    exact htV_ne_P ((strAppend_left_inj _ _ _).mp h).symm
  have htC_ne_src : c.basePath ++ ("/.Trash/" ++ basenameStr P) ≠ c.basePath ++ P :=
    fun h => hsrc_ne_tC h.symm
  have hsrc_sw_false : strStartsWith (c.basePath ++ P)
      ((c.basePath ++ ("/.Trash/" ++ basenameStr P)) ++ "/") = false := by
    cases hq : strStartsWith (c.basePath ++ P)
        ((c.basePath ++ ("/.Trash/" ++ basenameStr P)) ++ "/") with
    | false => rfl
    | true =>
      exfalso
      rw [strAppend_assoc, strStartsWith_cancel] at hq
      have h4 := startsWith_weaken P "/.Trash/" (basenameStr P ++ "/")
        (by rw [← strAppend_assoc]; exact hq)
      rw [h4] at hPnt
      cases hPnt
  have hout_tC_src : inSubtree (c.basePath ++ ("/.Trash/" ++ basenameStr P))
      (c.basePath ++ P) = false :=
    inSubtree_eq_false _ _ hsrc_ne_tC hsrc_sw_false
  have htC_sw_false : strStartsWith (c.basePath ++ ("/.Trash/" ++ basenameStr P))
      ((c.basePath ++ P) ++ "/") = false := by
    cases hq : strStartsWith (c.basePath ++ ("/.Trash/" ++ basenameStr P))
        ((c.basePath ++ P) ++ "/") with
    | false => rfl
    | true =>
      exfalso
      rw [strAppend_assoc, strStartsWith_cancel] at hq
      exact trash_escape P (basenameStr P) hbn_ns hPtr hq
  have hout_src_tC : inSubtree (c.basePath ++ P)
      (c.basePath ++ ("/.Trash/" ++ basenameStr P)) = false :=
    inSubtree_eq_false _ _ htC_ne_src htC_sw_false
  have hparsw : strStartsWith (parentOr P) "/.Trash/" = false :=
    parentOr_not_trash P hPnorm hPnt
  have hlt : strLen (parentOr P) < strLen P := strLen_parentOr_lt P hPmem47 hroot
  have hpar_sub : inSubtree (c.basePath ++ ("/.Trash/" ++ basenameStr P))
        (translatedPath c (parentOr P)) = false ∧
      inSubtree (c.basePath ++ P) (translatedPath c (parentOr P)) = false := by
    unfold translatedPath
    by_cases hpq : parentOr P = "/"
    · rw [if_pos hpq]
      constructor
      · apply inSubtree_eq_false
        · intro h
          have h2 := congrArg strLen h
          rw [strLen_append, strLen_append, show strLen "/.Trash/" = 8 from rfl] at h2
          omega
        · cases hq : strStartsWith c.basePath
              ((c.basePath ++ ("/.Trash/" ++ basenameStr P)) ++ "/") with
          | false => rfl
          | true =>
            exfalso
            have hle := strLen_le_of_startsWith _ _ hq
            rw [strLen_append, strLen_append, strLen_append,
              show strLen "/" = 1 from rfl, show strLen "/.Trash/" = 8 from rfl] at hle
            omega
      · apply inSubtree_eq_false
        · intro h
          have h2 := congrArg strLen h
          rw [strLen_append] at h2
          exact hPne (String.ext (List.length_eq_zero.mp (by omega)))
        · cases hq : strStartsWith c.basePath ((c.basePath ++ P) ++ "/") with
          | false => rfl
          | true =>
            exfalso
            have hle := strLen_le_of_startsWith _ _ hq
            rw [strLen_append, strLen_append, show strLen "/" = 1 from rfl] at hle
            omega
    · rw [if_neg hpq]
      constructor
      · apply inSubtree_eq_false
        · intro h
          have h3 := (strAppend_left_inj _ _ _).mp h
          have h4 : strStartsWith (parentOr P) "/.Trash/" = true := by
            rw [h3]
            exact (strStartsWith_iff _ _).mpr ⟨basenameStr P, rfl⟩
          rw [h4] at hparsw
          cases hparsw
        · cases hq : strStartsWith (c.basePath ++ parentOr P)
              ((c.basePath ++ ("/.Trash/" ++ basenameStr P)) ++ "/") with
          | false => rfl
          | true =>
            exfalso
            rw [strAppend_assoc, strStartsWith_cancel] at hq
            have h4 := startsWith_weaken (parentOr P) "/.Trash/" (basenameStr P ++ "/")
              (by rw [← strAppend_assoc]; exact hq)
            rw [h4] at hparsw
            cases hparsw
      · apply inSubtree_eq_false
        · intro h
          have h3 := (strAppend_left_inj _ _ _).mp h
          rw [h3] at hlt
          omega
        · cases hq : strStartsWith (c.basePath ++ parentOr P)
              ((c.basePath ++ P) ++ "/") with
          | false => rfl
          | true =>
            exfalso
            rw [strAppend_assoc, strStartsWith_cancel] at hq
            have hle := strLen_le_of_startsWith _ _ hq
            rw [strLen_append, show strLen "/" = 1 from rfl] at hle
            omega
  have hparent₂ : ((fs.removeTree (c.basePath ++ ("/.Trash/" ++ basenameStr P))).moveTree
      (c.basePath ++ P) (c.basePath ++ ("/.Trash/" ++ basenameStr P))).existsPath
      (translatedPath c (parentOr P)) = true := by
    rw [existsPath_iff]
    exact mv_keep_path fs (c.basePath ++ P) (c.basePath ++ ("/.Trash/" ++ basenameStr P))
      (translatedPath c (parentOr P)) ((existsPath_iff fs _).mp hparent)
      hpar_sub.1 hpar_sub.2
  have habs : ((fs.removeTree (c.basePath ++ ("/.Trash/" ++ basenameStr P))).moveTree
      (c.basePath ++ P) (c.basePath ++ ("/.Trash/" ++ basenameStr P))).existsPath
      (c.basePath ++ P) = false := by
    rw [existsPath_false_iff]
    intro hmem2
    rw [mv_paths] at hmem2
    rcases List.mem_map.mp hmem2 with ⟨q, hqf, hqe⟩
    rcases List.mem_filter.mp hqf with ⟨hq, hqd⟩
    by_cases hs : inSubtree (c.basePath ++ P) q = true
    · rw [if_pos hs] at hqe
      unfold relocate at hqe
      have hswP : strStartsWith P "/.Trash/" = true := by
        have h2 := hqe.symm
        rw [strAppend_assoc] at h2
        have h3 := (strAppend_left_inj _ _ _).mp h2
        rw [h3, strAppend_assoc]
        exact (strStartsWith_iff _ _).mpr
          ⟨basenameStr P ++ strDrop q (strLen (c.basePath ++ P)), rfl⟩
      rw [hswP] at hPnt
      cases hPnt
    · rw [if_neg hs] at hqe
      apply hs
      rw [hqe]
      exact inSubtree_self _
  have he₁ : Entry.mk (c.basePath ++ ("/.Trash/" ++ basenameStr P)) NodeKind.file content
      ∈ ((fs.removeTree (c.basePath ++ ("/.Trash/" ++ basenameStr P))).moveTree
        (c.basePath ++ P) (c.basePath ++ ("/.Trash/" ++ basenameStr P))).entries :=
    mv_entry_src fs (c.basePath ++ P) (c.basePath ++ ("/.Trash/" ++ basenameStr P))
      content NodeKind.file hmem hout_tC_src
  have hex₁ : ((fs.removeTree (c.basePath ++ ("/.Trash/" ++ basenameStr P))).moveTree
      (c.basePath ++ P) (c.basePath ++ ("/.Trash/" ++ basenameStr P))).existsPath
      (c.basePath ++ ("/.Trash/" ++ basenameStr P)) = true := by
    rw [existsPath_iff]
    exact path_mem_of_entry _ _ he₁
  have hnd₂ := mv_nodup fs (c.basePath ++ P)
    (c.basePath ++ ("/.Trash/" ++ basenameStr P)) hnd
  have he₂ : Entry.mk (c.basePath ++ P) NodeKind.file content
      ∈ ((((fs.removeTree (c.basePath ++ ("/.Trash/" ++ basenameStr P))).moveTree
          (c.basePath ++ P) (c.basePath ++ ("/.Trash/" ++ basenameStr P))).removeTree
            (c.basePath ++ P)).moveTree
          (c.basePath ++ ("/.Trash/" ++ basenameStr P)) (c.basePath ++ P)).entries :=
    mv_entry_src _ (c.basePath ++ ("/.Trash/" ++ basenameStr P)) (c.basePath ++ P)
      content NodeKind.file he₁ hout_src_tC
  have hnd₃ := mv_nodup ((fs.removeTree (c.basePath ++ ("/.Trash/" ++ basenameStr P))).moveTree
      (c.basePath ++ P) (c.basePath ++ ("/.Trash/" ++ basenameStr P)))
    (c.basePath ++ ("/.Trash/" ++ basenameStr P)) (c.basePath ++ P) hnd₂
  have hfind3 := Fs.find?_eq _ hnd₃ _ he₂
  have hdel := softDelete_eval c fs db P content hBclean hdd hroot hmem hnd hcol htr hPnt
  obtain ⟨r, hfr, hor⟩ := upsert_delete_find db ("/.Trash/" ++ basenameStr P) P htV_ne_P
  have hrest := restore_eval c
    ((fs.removeTree (c.basePath ++ ("/.Trash/" ++ basenameStr P))).moveTree
      (c.basePath ++ P) (c.basePath ++ ("/.Trash/" ++ basenameStr P)))
    ((db.upsertMeta ("/.Trash/" ++ basenameStr P) none none true (some P)).deleteMeta P)
    P content r hfr hor hPne hdd hroot hPnorm hBclean hparent₂ habs hex₁ htC_ne_src hfind3
  exact ⟨_, hdel, rfl, rfl, rfl, _, hrest, rfl, hfind3,
    deleteMeta_find_none _ ("/.Trash/" ++ basenameStr P)⟩

/-- A fixture for the round trip: a file at `/Docs/f` with `/.Trash` and
all ancestors in place. -/
def fsDemo4 : Fs :=
  ⟨[⟨"/home", NodeKind.dir, ""⟩,
    ⟨"/home/aisu", NodeKind.dir, ""⟩,
    ⟨"/home/aisu/Docs", NodeKind.dir, ""⟩,
    ⟨"/home/aisu/.Trash", NodeKind.dir, ""⟩,
    ⟨"/home/aisu/Docs/f", NodeKind.file, "hello"⟩]⟩

/-- Witness for C3 at the `/Docs/f` fixture. -/
theorem c3_soft_delete_restore_roundtrip_witness :
    (Entry.mk (cDemo.basePath ++ "/Docs/f") NodeKind.file "hello" ∈ fsDemo4.entries) ∧
    fsDemo4.paths.Nodup ∧
    (∃ res₁ : DeleteResult, deleteNode cDemo fsDemo4 (⟨[]⟩ : Db) "/Docs/f" false = .ok res₁ ∧
      res₁.path = "/.Trash/" ++ basenameStr "/Docs/f" ∧
      res₁.isTrashed = true ∧
      res₁.originalPath = some "/Docs/f" ∧
      ∃ res₂ : MoveResult, restoreNode cDemo res₁.fs res₁.db res₁.path = .ok res₂ ∧
        res₂.newPath = "/Docs/f" ∧
        res₂.fs.find? (cDemo.basePath ++ "/Docs/f")
          = some (Entry.mk (cDemo.basePath ++ "/Docs/f") NodeKind.file "hello") ∧
        res₂.db.find? ("/.Trash/" ++ basenameStr "/Docs/f") = none) :=
  ⟨by decide, by decide,
   c3_soft_delete_restore_roundtrip cDemo fsDemo4 ⟨[]⟩ "/Docs/f" "hello"
     (by decide) (by decide) (by decide) (by decide) (by decide) (by decide) (by decide)
     (by decide) (by decide) (by decide) (by decide) (by decide)⟩

end Aisu
